import Mathlib

/-! Index tuple header (`src/include/access/itup.h`)

A shallow embedding of the inline functions of `itup.h`: the `t_info` queries,
`IndexInfoFindDataOffset`, `index_getattr` and `MaxIndexTuplesPerPage`, with the
properties of the header layout proved about them.  The routines that `itup.h` only
declares (`index_form_tuple`, `index_deform_tuple`, `nocache_index_getattr`) are written
from the description of the record format.

Conventions.

* `unsigned short`, `Size` and `Datum` values are natural numbers; `int` values
  are integers.  The `(int)` conversion of `MaxIndexTuplesPerPage` and the
  unsigned subtraction in it are written with their wrap-around.
* `sizeof` values and the other build constants that `itup.h` takes from headers
  outside this file are fields of `Config`; sums of object sizes are exact.
* Pointers into a tuple are byte offsets from the start of the tuple.
-/

namespace Itup

/-! ## Build constants -/

/-- Constants that `itup.h` uses and other headers define. -/
structure Config where
  /-- The value of `sizeof(IndexTupleData)`. -/
  sizeofIndexTupleData : Nat
  /-- The maximum number of index key columns, `INDEX_MAX_KEYS`. -/
  INDEX_MAX_KEYS : Nat
  /-- The alignment boundary of `MAXALIGN`, `MAXIMUM_ALIGNOF`. -/
  MAXIMUM_ALIGNOF : Nat
  /-- The page size, `BLCKSZ`. -/
  BLCKSZ : Nat
  /-- The page header size, `SizeOfPageHeaderData`. -/
  SizeOfPageHeaderData : Nat
  /-- The value of `sizeof(ItemIdData)`, one line pointer. -/
  sizeofItemIdData : Nat
  deriving Repr, DecidableEq

/-- The standard build: 8-byte tuple header, 32 key columns, 8-byte `MAXALIGN`,
8192-byte pages, 24-byte page header, 4-byte line pointers. -/
def standardConfig : Config :=
  { sizeofIndexTupleData := 8
    INDEX_MAX_KEYS := 32
    MAXIMUM_ALIGNOF := 8
    BLCKSZ := 8192
    SizeOfPageHeaderData := 24
    sizeofItemIdData := 4 }

/-- The value of `sizeof(IndexAttributeBitMapData)`: the struct holds the single array
`bits8 bits[(INDEX_MAX_KEYS + 8 - 1) / 8]`. -/
def sizeofIndexAttributeBitMapData (c : Config) : Nat :=
  (c.INDEX_MAX_KEYS + 8 - 1) / 8

/-! ## Alignment -/

/-- The bits of `x` that are not bits of `m`, the C expression `x & ~m`: the bits
that `x` shares with `m` are taken away from it. -/
def andNot (x m : Nat) : Nat :=
  x - (x &&& m)

/-- Modelled from the spec: the alignment rounding `TYPEALIGN` behind `MAXALIGN`
is defined in `c.h`, outside this file.  The spec describes `align(x)` as the first
alignment boundary, a fixed power of two, at or after `x`; it is computed the
usual way, by adding `ALIGNVAL - 1` and clearing the low bits. -/
def TYPEALIGN (ALIGNVAL LEN : Nat) : Nat :=
  andNot (LEN + (ALIGNVAL - 1)) (ALIGNVAL - 1)

/-- Modelled from the spec: `MAXALIGN` is defined in `c.h`, outside this file.  It is
the `align` of the spec, the rounding above at the boundary `MAXIMUM_ALIGNOF`. -/
def MAXALIGN (c : Config) (LEN : Nat) : Nat :=
  TYPEALIGN c.MAXIMUM_ALIGNOF LEN

/-! ## `t_info` queries -/

/-- The mask of the size bits, `0x1FFF`. -/
def INDEX_SIZE_MASK : Nat := 0x1FFF

/-- The bit reserved for index-AM specific usage, `0x2000`. -/
def INDEX_AM_RESERVED_BIT : Nat := 0x2000

/-- The mask of the has-var-width-attributes bit, `0x4000`. -/
def INDEX_VAR_MASK : Nat := 0x4000

/-- The mask of the has-nulls bit, `0x8000`. -/
def INDEX_NULL_MASK : Nat := 0x8000

/-- Conversion of an integer to C `bool`: true exactly for a non-zero value. -/
def toBool (n : Nat) : Bool :=
  n != 0

/-- The function `IndexTupleSize`: `itup->t_info & INDEX_SIZE_MASK`. -/
def IndexTupleSize (t_info : Nat) : Nat :=
  t_info &&& INDEX_SIZE_MASK

/-- The function `IndexTupleHasNulls`: `itup->t_info & INDEX_NULL_MASK`, returned as `bool`. -/
def IndexTupleHasNulls (t_info : Nat) : Bool :=
  toBool (t_info &&& INDEX_NULL_MASK)

/-- The function `IndexTupleHasVarwidths`: `itup->t_info & INDEX_VAR_MASK`, returned as
`bool`. -/
def IndexTupleHasVarwidths (t_info : Nat) : Bool :=
  toBool (t_info &&& INDEX_VAR_MASK)

/-- The function `IndexInfoFindDataOffset`, on the field `t_info` alone. -/
def IndexInfoFindDataOffset (c : Config) (t_info : Nat) : Nat :=
  if !(toBool (t_info &&& INDEX_NULL_MASK)) then
    MAXALIGN c c.sizeofIndexTupleData
  else
    MAXALIGN c (c.sizeofIndexTupleData + sizeofIndexAttributeBitMapData c)

/-! ## Tuples, descriptors and the helpers of `index_getattr` -/

/-- A `Datum`, one machine word. -/
abbrev Datum := Nat

/-- An index tuple as `index_getattr` sees it through its `IndexTuple` pointer: the
header field `t_tid` (not interpreted here), the header field `t_info`, and the
bytes of the buffer, `mem[i]` being the byte at `(char *) tup + i`. -/
structure IndexTuple where
  /-- The reference TID to the heap tuple. -/
  t_tid : Nat
  /-- The flag bits and the size of the tuple. -/
  t_info : Nat
  /-- The bytes of the tuple, addressed from its start. -/
  mem : List Nat
  deriving Repr, DecidableEq

/-- Modelled from the spec: `CompactAttribute` is declared in `access/tupdesc.h`,
outside this file.  Per the spec a schema attribute carries its byte width (or a
variable-width marker), its alignment, its pass-by-value classification and the
cached offset, which is negative when unknown. -/
structure CompactAttribute where
  /-- The cached byte offset from the start of attribute data, `-1` if unknown. -/
  attcacheoff : Int
  /-- The byte width, negative for variable width. -/
  attlen : Int
  /-- Whether the value is passed by value. -/
  attbyval : Bool
  /-- The alignment requirement in bytes. -/
  attalignby : Nat
  deriving Repr, DecidableEq

/-- What `index_getattr` does to its surroundings, in order. -/
inductive Event where
  /-- The attribute `i` of the descriptor was looked up, `TupleDescCompactAttr(tupleDesc, i)`. -/
  | compactAttr (i : Nat)
  /-- A call `fetchatt(attr, (char *) tup + off)`. -/
  | fetchatt (off : Nat)
  /-- A call `att_isnull(att, (bits8 *) tup + off)`. -/
  | att_isnull (att : Nat) (off : Nat)
  /-- A call `nocache_index_getattr(tup, attnum, tupleDesc)`. -/
  | nocache (attnum : Int)
  deriving Repr, DecidableEq

/-- The routines and declarations `index_getattr` uses and `itup.h` does not define,
over a descriptor type `D` standing for `TupleDesc`. A pointer argument is the
tuple and a byte offset from its start. -/
structure Env (D : Type) where
  /-- The lookup `TupleDescCompactAttr(tupdesc, i)`. -/
  TupleDescCompactAttr : D → Nat → CompactAttribute
  /-- The value fetch `fetchatt(attr, ptr)`. -/
  fetchatt : CompactAttribute → IndexTuple → Nat → Datum
  /-- The bitmap test `att_isnull(ATT, BITS)`. -/
  att_isnull : Nat → IndexTuple → Nat → Bool
  /-- The routine `nocache_index_getattr` of `indextuple.c`; it returns a `Datum` and may
  fill in cached offsets of the descriptor. -/
  nocache_index_getattr : IndexTuple → Int → D → Datum × D

/-- Modelled from the spec: `att_isnull` is defined in `access/tupmacs.h`, outside
this file.  The spec gives the null bitmap "one bit per attribute, bit set iff
null"; attribute `ATT` has bit `ATT & 0x07` of byte `ATT >> 3`. -/
def att_isnull (ATT : Nat) (tup : IndexTuple) (BITS : Nat) : Bool :=
  toBool (tup.mem.getD (BITS + (ATT >>> 3)) 0 &&& (1 <<< (ATT &&& 0x07)))

/-- The outcome of `index_getattr`: the returned `Datum`, the flag stored through
`isnull`, the descriptor afterwards, and the helpers used on the way. -/
structure GetAttr (D : Type) where
  /-- The returned value. -/
  value : Datum
  /-- The value left in `*isnull`. -/
  isnull : Bool
  /-- The descriptor after the call. -/
  desc : D
  /-- The helpers used, in order. -/
  trace : List Event

/-- The function `index_getattr`.  `Assert(attnum > 0)` is the only condition on the
arguments; where it fails there is no result. -/
def index_getattr {D : Type} (c : Config) (env : Env D) (tup : IndexTuple) (attnum : Int)
    (tupleDesc : D) : Option (GetAttr D) :=
  if attnum ≤ 0 then
    none
  else
    let att := (attnum - 1).toNat
    if !(IndexTupleHasNulls tup.t_info) then
      let attr := env.TupleDescCompactAttr tupleDesc att
      if attr.attcacheoff ≥ 0 then
        let off := IndexInfoFindDataOffset c tup.t_info + attr.attcacheoff.toNat
        some { value := env.fetchatt attr tup off
               isnull := false
               desc := tupleDesc
               trace := [Event.compactAttr att, Event.fetchatt off] }
      else
        let r := env.nocache_index_getattr tup attnum tupleDesc
        some { value := r.1
               isnull := false
               desc := r.2
               trace := [Event.compactAttr att, Event.nocache attnum] }
    else
      if env.att_isnull att tup c.sizeofIndexTupleData then
        some { value := 0
               isnull := true
               desc := tupleDesc
               trace := [Event.att_isnull att c.sizeofIndexTupleData] }
      else
        let r := env.nocache_index_getattr tup attnum tupleDesc
        some { value := r.1
               isnull := false
               desc := r.2
               trace := [Event.att_isnull att c.sizeofIndexTupleData, Event.nocache attnum] }

/-- Whether `nocache_index_getattr` was called. -/
def calledNocache (t : List Event) : Bool :=
  t.any fun e => match e with
    | Event.nocache _ => true
    | _ => false

/-- Whether `fetchatt` was called. -/
def calledFetchatt (t : List Event) : Bool :=
  t.any fun e => match e with
    | Event.fetchatt _ => true
    | _ => false

/-- Whether the descriptor was read. -/
def readDescriptor (t : List Event) : Bool :=
  t.any fun e => match e with
    | Event.compactAttr _ => true
    | _ => false

/-! ## `MaxIndexTuplesPerPage` -/

/-- Subtraction of `Size` values, which wraps around at `2 ^ 64`. -/
def sizeSub (a b : Nat) : Nat :=
  (((a : Int) - (b : Int)) % (2 ^ 64 : Int)).toNat

/-- Conversion of a `Size` value to `int` (32 bits, two's complement). -/
def toInt32 (n : Nat) : Int :=
  if n % 2 ^ 32 < 2 ^ 31 then ((n % 2 ^ 32 : Nat) : Int) else ((n % 2 ^ 32 : Nat) : Int) - 2 ^ 32

/-- The divisor of `MaxIndexTuplesPerPage`: the least space one tuple takes,
`MAXALIGN(sizeof(IndexTupleData) + 1) + sizeof(ItemIdData)`. -/
def minTupleFootprint (c : Config) : Nat :=
  MAXALIGN c (c.sizeofIndexTupleData + 1) + c.sizeofItemIdData

/-- The dividend of `MaxIndexTuplesPerPage`: `BLCKSZ - SizeOfPageHeaderData`. -/
def usablePageArea (c : Config) : Nat :=
  sizeSub c.BLCKSZ c.SizeOfPageHeaderData

/-- The constant `MaxIndexTuplesPerPage`. -/
def MaxIndexTuplesPerPage (c : Config) : Int :=
  toInt32 (usablePageArea c / minTupleFootprint c)

/-- The space a page needs for tuples of the given sizes with one line pointer each. -/
def spaceNeeded (c : Config) (sizes : List Nat) : Nat :=
  (sizes.map fun s => s + c.sizeofItemIdData).sum

/-! ## Composing the header field -/

/-- The bit of `t_info` reserved for the index access method, `t_info & INDEX_AM_RESERVED_BIT`
as a `bool`. -/
def IndexTupleAmReserved (t_info : Nat) : Bool :=
  toBool (t_info &&& INDEX_AM_RESERVED_BIT)

/-- The field made of a size and the three flags,
`s | (n ? 0x8000 : 0) | (v ? 0x4000 : 0) | (r ? 0x2000 : 0)`. -/
def composeInfo (s : Nat) (n v r : Bool) : Nat :=
  s ||| (if n then INDEX_NULL_MASK else 0) ||| (if v then INDEX_VAR_MASK else 0) |||
    (if r then INDEX_AM_RESERVED_BIT else 0)

/-! ## The encoder and the decoder

The routines `index_form_tuple`, `index_deform_tuple`, `index_deform_tuple_internal` and
`nocache_index_getattr` are declared in `itup.h` and defined in `indextuple.c`.  They are
written here from the description of the record format: the value of an attribute is the
list of its bytes, a fixed-width attribute is stored as its `attlen` bytes and a
variable-width one behind a length word of `VARHDRSZ` bytes. -/

/-- Modelled from the spec: the alignment of the running offset to the alignment class of
an attribute (`att_align_nominal` of `access/tupmacs.h`, outside this file), the rounding
`TYPEALIGN` at the attribute's `attalignby`. -/
def att_align (cur_offset attalignby : Nat) : Nat :=
  TYPEALIGN attalignby cur_offset

/-- Modelled from the spec: the size of the length word that makes a variable-width value
self-describing. -/
def VARHDRSZ : Nat := 4

/-- Modelled from the spec: the length word of a variable-width value of `n` bytes, least
significant byte first. -/
def encodeLength (n : Nat) : List Nat :=
  [n % 256, n / 256 % 256, n / 65536 % 256, n / 16777216 % 256]

/-- Modelled from the spec: the length read from the length word at position `pos`. -/
def decodeLength (mem : List Nat) (pos : Nat) : Nat :=
  mem.getD pos 0 + 256 * mem.getD (pos + 1) 0 + 65536 * mem.getD (pos + 2) 0 +
    16777216 * mem.getD (pos + 3) 0

/-- Modelled from the spec: the stored form of a non-null value, its bytes for a
fixed-width attribute and length word plus bytes for a variable-width one
(`attlen < 0`). -/
def attEncoded (a : CompactAttribute) (v : List Nat) : List Nat :=
  if a.attlen < 0 then encodeLength v.length ++ v else v

/-- Modelled from the spec: the attribute data written so far, extended by the remaining
attributes in schema order.  The running offset is the length of `data`; a null
contributes nothing; any other value is put at the offset aligned for its attribute,
over zero padding. -/
def fillData : List CompactAttribute → List (List Nat) → List Bool → List Nat → List Nat
  | a :: desc, v :: values, n :: isnull, data =>
    if n then fillData desc values isnull data
    else
      fillData desc values isnull
        (data ++ List.replicate (att_align data.length a.attalignby - data.length) 0 ++
          attEncoded a v)
  | _, _, _, data => data

/-- Modelled from the spec: whether some non-null attribute is of variable width. -/
def hasVarwidth : List CompactAttribute → List Bool → Bool
  | a :: desc, n :: isnull => (!n && decide (a.attlen < 0)) || hasVarwidth desc isnull
  | _, _ => false

/-- The number whose binary digits are the given bits, least significant first. -/
def packBits : List Bool → Nat
  | [] => 0
  | b :: bs => b.toNat + 2 * packBits bs

/-- Modelled from the spec: the null bitmap, `sizeof(IndexAttributeBitMapData)` bytes with
one bit per attribute, set exactly for a null; attribute `i` has bit `i mod 8` of byte
`i div 8`. -/
def nullBitmap (c : Config) (isnull : List Bool) : List Nat :=
  (List.range (sizeofIndexAttributeBitMapData c)).map fun j =>
    packBits ((isnull.drop (8 * j)).take 8)

/-- Modelled from the spec: the flag bits of the record to build, has-nulls when some
attribute is null and has-var-width when some non-null attribute is of variable
width. -/
def formInfomask (tupleDescriptor : List CompactAttribute) (isnull : List Bool) : Nat :=
  (if isnull.any id then INDEX_NULL_MASK else 0) |||
    (if hasVarwidth tupleDescriptor isnull then INDEX_VAR_MASK else 0)

/-- Modelled from the spec: the total size of the record to build, the end of the
attribute data rounded up by `MAXALIGN`. -/
def formSize (c : Config) (tupleDescriptor : List CompactAttribute) (values : List (List Nat))
    (isnull : List Bool) : Nat :=
  MAXALIGN c (IndexInfoFindDataOffset c (formInfomask tupleDescriptor isnull) +
    (fillData tupleDescriptor values isnull []).length)

/-- Modelled from the spec: `index_form_tuple`, declared in `itup.h` and defined in
`indextuple.c`.  The layout is computed, a record of more than 8191 bytes is refused, and
the zero-filled buffer receives the header (its bytes in `mem` are left zero; the fields
are `t_tid`, a placeholder, and `t_info`), the null bitmap if some attribute is null, and
the attribute data at `IndexInfoFindDataOffset`. -/
def index_form_tuple (c : Config) (tupleDescriptor : List CompactAttribute)
    (values : List (List Nat)) (isnull : List Bool) : Option IndexTuple :=
  let infomask := formInfomask tupleDescriptor isnull
  let hoff := IndexInfoFindDataOffset c infomask
  let data := fillData tupleDescriptor values isnull []
  let size := MAXALIGN c (hoff + data.length)
  if size > INDEX_SIZE_MASK then
    none
  else
    let head := List.replicate c.sizeofIndexTupleData 0 ++
      (if isnull.any id then nullBitmap c isnull else [])
    some { t_tid := 0
           t_info := infomask ||| size
           mem := head ++ List.replicate (hoff - head.length) 0 ++ data ++
             List.replicate (size - (hoff + data.length)) 0 }

/-- Modelled from the spec: the space an attribute takes at position `pos` of the record,
`attlen` bytes, or for a variable-width attribute the length word and the length it
holds. -/
def att_length (a : CompactAttribute) (tup : IndexTuple) (pos : Nat) : Nat :=
  if a.attlen < 0 then VARHDRSZ + decodeLength tup.mem pos else a.attlen.toNat

/-- Modelled from the spec: the bytes of the value of an attribute stored at position `pos`
of the record, `attlen` bytes, or for a variable-width attribute the bytes that follow the
length word. -/
def attrBytes (a : CompactAttribute) (tup : IndexTuple) (pos : Nat) : List Nat :=
  if a.attlen < 0 then (tup.mem.drop (pos + VARHDRSZ)).take (decodeLength tup.mem pos)
  else (tup.mem.drop pos).take a.attlen.toNat

/-- Modelled from the spec: `index_deform_tuple_internal`, declared in `itup.h` and defined
in `indextuple.c`, from attribute number `attnum` and running offset `off` on.  The
attribute data is at `tp` and the null bitmap at `bp`.  A null attribute (only looked for
when `hasnulls`) gets the value `nullValue` and leaves the offset alone; any other value
is taken by `fetch` at the aligned offset, which then moves past it. -/
def index_deform_tuple_internal {α : Type} (fetch : CompactAttribute → IndexTuple → Nat → α)
    (nullValue : α) (tup : IndexTuple) (tp bp : Nat) (hasnulls : Bool) :
    List CompactAttribute → Nat → Nat → List α × List Bool
  | [], _, _ => ([], [])
  | a :: desc, attnum, off =>
    if hasnulls && att_isnull attnum tup bp then
      let r := index_deform_tuple_internal fetch nullValue tup tp bp hasnulls desc (attnum + 1) off
      (nullValue :: r.1, true :: r.2)
    else
      let pos := att_align off a.attalignby
      let r := index_deform_tuple_internal fetch nullValue tup tp bp hasnulls desc (attnum + 1)
        (pos + att_length a tup (tp + pos))
      (fetch a tup (tp + pos) :: r.1, false :: r.2)

/-- Modelled from the spec: `index_deform_tuple`, declared in `itup.h` and defined in
`indextuple.c`: the values and the null flags of all attributes of the descriptor.  The
start of the attribute data and the presence of the bitmap are taken from `t_info`.  How a
value is taken from its position is left to `fetch`: `fetchatt` for a `Datum`, `attrBytes`
for the bytes. -/
def index_deform_tuple {α : Type} (c : Config) (fetch : CompactAttribute → IndexTuple → Nat → α)
    (nullValue : α) (tup : IndexTuple) (tupleDescriptor : List CompactAttribute) :
    List α × List Bool :=
  index_deform_tuple_internal fetch nullValue tup (IndexInfoFindDataOffset c tup.t_info)
    c.sizeofIndexTupleData (IndexTupleHasNulls tup.t_info) tupleDescriptor 0 0

/-- Modelled from the spec: the cached offsets filled in along a walk from running offset
`off`: while the attributes are of fixed width each gets its aligned offset; from the
first variable-width attribute on nothing is touched. -/
def cacheOffsets : List CompactAttribute → Nat → List CompactAttribute
  | [], _ => []
  | a :: desc, off =>
    if a.attlen < 0 then a :: desc
    else
      { a with attcacheoff := (att_align off a.attalignby : Nat) } ::
        cacheOffsets desc (att_align off a.attalignby + a.attlen.toNat)

/-- Modelled from the spec: `nocache_index_getattr`, declared in `itup.h` and defined in
`indextuple.c`: the walk of the decoder over the attributes 1 to `attnum`, of which the
last value is returned.  On a record without nulls the cached offsets of the fixed-width
attributes met on the way are filled in. -/
def nocache_index_getattr (c : Config) (fetch : CompactAttribute → IndexTuple → Nat → Datum)
    (tup : IndexTuple) (attnum : Int) (tupleDesc : List CompactAttribute) :
    Datum × List CompactAttribute :=
  ((index_deform_tuple c fetch 0 tup (tupleDesc.take attnum.toNat)).1.getD (attnum - 1).toNat 0,
    if IndexTupleHasNulls tup.t_info then tupleDesc
    else cacheOffsets (tupleDesc.take attnum.toNat) 0 ++ tupleDesc.drop attnum.toNat)

/-- Modelled from the spec: whether the cached offsets of a descriptor are right, walking
from running offset `off` (`none` once a variable-width attribute has been passed).  A
cached offset is unknown (negative), or every attribute up to and including its own is of
fixed width and it is the aligned offset of its attribute. -/
def cacheValid : List CompactAttribute → Option Nat → Bool
  | [], _ => true
  | a :: desc, some off =>
    if a.attlen < 0 then decide (a.attcacheoff < 0) && cacheValid desc none
    else
      (decide (a.attcacheoff < 0) ||
          decide (a.attcacheoff = ((att_align off a.attalignby : Nat) : Int))) &&
        cacheValid desc (some (att_align off a.attalignby + a.attlen.toNat))
  | a :: desc, none => decide (a.attcacheoff < 0) && cacheValid desc none

/-- The helpers of `index_getattr` as described by the spec, over descriptors that are
lists of attributes: the bitmap test `att_isnull`, the walk `nocache_index_getattr`, and a
`fetchatt` that is left open. -/
def specEnv (c : Config) (fetch : CompactAttribute → IndexTuple → Nat → Datum) :
    Env (List CompactAttribute) :=
  { TupleDescCompactAttr := fun d i =>
      d.getD i { attcacheoff := -1, attlen := -1, attbyval := false, attalignby := 1 }
    fetchatt := fetch
    att_isnull := att_isnull
    nocache_index_getattr := nocache_index_getattr c fetch }

/-- A `fetchatt` for evaluation: the byte under the pointer. -/
def fetchByte (_ : CompactAttribute) (tup : IndexTuple) (pos : Nat) : Datum :=
  tup.mem.getD pos 0

/-- Whether values and null flags fit a descriptor: there are as many of each as
attributes, a null carries no value, and the value of a fixed-width attribute has `attlen`
bytes. -/
def valuesFit : List CompactAttribute → List (List Nat) → List Bool → Bool
  | a :: desc, v :: values, n :: isnull =>
    (if n then decide (v = []) else (decide (a.attlen < 0) || decide (v.length = a.attlen.toNat))) &&
      valuesFit desc values isnull
  | [], [], [] => true
  | _, _, _ => false

/-- A descriptor of a 4-byte column, a variable-width column and a 4-byte column. -/
def exampleDesc : List CompactAttribute :=
  [ { attcacheoff := 0, attlen := 4, attbyval := true, attalignby := 4 },
    { attcacheoff := -1, attlen := -1, attbyval := false, attalignby := 4 },
    { attcacheoff := -1, attlen := 4, attbyval := true, attalignby := 4 } ]

/-! ## A concrete instance, for evaluating `index_getattr` -/

/-- A small instance of the helpers: the descriptor is the list of its attributes,
`fetchatt` reads the byte under the pointer, `att_isnull` is the bitmap test above,
and in place of `nocache_index_getattr` stands a routine that returns the attribute
number plus 1000 and leaves the descriptor alone. -/
def listEnv : Env (List CompactAttribute) :=
  { TupleDescCompactAttr := fun d i =>
      d.getD i { attcacheoff := -1, attlen := -1, attbyval := false, attalignby := 1 }
    fetchatt := fun _ tup off => tup.mem.getD off 0
    att_isnull := att_isnull
    nocache_index_getattr := fun _ attnum d => ((attnum + 1000).toNat, d) }

/-- A descriptor of two 4-byte columns with known offsets 0 and 4 and a variable-width
column with unknown offset. -/
def sampleDesc : List CompactAttribute :=
  [ { attcacheoff := 0, attlen := 4, attbyval := true, attalignby := 4 },
    { attcacheoff := 4, attlen := 4, attbyval := true, attalignby := 4 },
    { attcacheoff := -1, attlen := -1, attbyval := false, attalignby := 4 } ]

/-- A 16-byte tuple without nulls in the standard layout: 8 header bytes, then the
columns 42 and 7. -/
def sampleTuple : IndexTuple :=
  { t_tid := 0
    t_info := 0x0010
    mem := [0, 0, 0, 0, 1, 0, 0x10, 0x00, 42, 0, 0, 0, 7, 0, 0, 0] }

/-- A 24-byte tuple with the has-nulls bit set in the standard layout: 8 header bytes,
4 bitmap bytes of which the first is `0b00000100`, 4 bytes of padding, then the
columns 42 and 7. -/
def sampleTupleNulls : IndexTuple :=
  { t_tid := 0
    t_info := 0x8018
    mem := [0, 0, 0, 0, 1, 0, 0x18, 0x80, 0x04, 0, 0, 0, 0, 0, 0, 0,
            42, 0, 0, 0, 7, 0, 0, 0] }

/-! ## Auxiliary facts -/

theorem toBool_and_two_pow (n i : Nat) : toBool (n &&& 2 ^ i) = n.testBit i := by
  rw [Nat.and_two_pow]
  cases h : n.testBit i
  · simp [toBool]
  · have hp : 0 < 2 ^ i := Nat.pow_pos (by decide)
    simp [toBool]

theorem andNot_two_pow_sub_one (x k : Nat) : andNot x (2 ^ k - 1) = x - x % 2 ^ k := by
  unfold andNot
  rw [Nat.and_pow_two_sub_one_eq_mod]

theorem TYPEALIGN_two_pow (k LEN : Nat) :
    TYPEALIGN (2 ^ k) LEN = 2 ^ k * ((LEN + (2 ^ k - 1)) / 2 ^ k) := by
  unfold TYPEALIGN
  rw [andNot_two_pow_sub_one]
  have h := Nat.div_add_mod (LEN + (2 ^ k - 1)) (2 ^ k)
  omega

theorem TYPEALIGN_mod (k LEN : Nat) : TYPEALIGN (2 ^ k) LEN % 2 ^ k = 0 := by
  rw [TYPEALIGN_two_pow]
  exact Nat.mul_mod_right _ _

theorem le_TYPEALIGN (A LEN : Nat) : LEN ≤ TYPEALIGN A LEN := by
  unfold TYPEALIGN andNot
  have h : (LEN + (A - 1)) &&& (A - 1) ≤ A - 1 := Nat.and_le_right
  omega

theorem TYPEALIGN_lt (k LEN : Nat) : TYPEALIGN (2 ^ k) LEN < LEN + 2 ^ k := by
  unfold TYPEALIGN andNot
  have hp : 0 < 2 ^ k := Nat.pow_pos (by decide)
  omega

theorem TYPEALIGN_le_of_boundary (k LEN b : Nat) (hb : b % 2 ^ k = 0) (hle : LEN ≤ b) :
    TYPEALIGN (2 ^ k) LEN ≤ b := by
  rw [TYPEALIGN_two_pow]
  have hp : 0 < 2 ^ k := Nat.pow_pos (by decide)
  obtain ⟨q, rfl⟩ : ∃ q, b = 2 ^ k * q := ⟨b / 2 ^ k, by
    have := Nat.div_add_mod b (2 ^ k)
    omega⟩
  apply Nat.mul_le_mul_left
  rw [Nat.div_le_iff_le_mul_add_pred hp]
  omega

/-! ## The header field -/

/-- Claim C1: `IndexInfoFindDataOffset(t_info)` is `MAXALIGN(sizeof(IndexTupleData))` when
bit 15 of `t_info` is clear and
`MAXALIGN(sizeof(IndexTupleData) + sizeof(IndexAttributeBitMapData))` when it is set; in
the standard layout these are 8 and 16. -/
theorem IndexInfoFindDataOffset_eq (c : Config) (t_info : Nat) :
    IndexInfoFindDataOffset c t_info =
        (if t_info.testBit 15 then
          MAXALIGN c (c.sizeofIndexTupleData + sizeofIndexAttributeBitMapData c)
        else MAXALIGN c c.sizeofIndexTupleData) ∧
      standardConfig.sizeofIndexTupleData = 8 ∧
      sizeofIndexAttributeBitMapData standardConfig = 4 ∧
      standardConfig.MAXIMUM_ALIGNOF = 8 ∧
      IndexInfoFindDataOffset standardConfig t_info = (if t_info.testBit 15 then 16 else 8) := by
  have hb : toBool (t_info &&& INDEX_NULL_MASK) = t_info.testBit 15 :=
    toBool_and_two_pow t_info 15
  refine ⟨?_, rfl, by decide, rfl, ?_⟩
  · unfold IndexInfoFindDataOffset
    rw [hb]
    cases t_info.testBit 15 <;> simp
  · unfold IndexInfoFindDataOffset
    rw [hb]
    cases t_info.testBit 15
    · simp; decide
    · simp; decide

/-- The position at which the header of a tuple ends: after `IndexTupleData`, and after
the `IndexAttributeBitMapData` that follows it when the has-nulls bit is set. -/
theorem headerEnd_cases (c : Config) (t_info : Nat) :
    IndexInfoFindDataOffset c t_info =
      MAXALIGN c (c.sizeofIndexTupleData +
        (if t_info.testBit 15 then sizeofIndexAttributeBitMapData c else 0)) := by
  have hb : toBool (t_info &&& INDEX_NULL_MASK) = t_info.testBit 15 :=
    toBool_and_two_pow t_info 15
  unfold IndexInfoFindDataOffset
  rw [hb]
  cases t_info.testBit 15 <;> simp

/-- Claim C2: for every header size, bitmap size and power-of-two alignment boundary,
`IndexInfoFindDataOffset(t_info)` is the first alignment boundary at or after the end
of the header (bit 15 clear) or of header plus bitmap (bit 15 set): it is a multiple
of the boundary, it is not before that end, it is less than one boundary past it,
and no boundary at or after that end comes earlier. -/
theorem IndexInfoFindDataOffset_first_boundary (c : Config) (k : Nat)
    (hA : c.MAXIMUM_ALIGNOF = 2 ^ k) (t_info : Nat) :
    IndexInfoFindDataOffset c t_info % c.MAXIMUM_ALIGNOF = 0 ∧
      c.sizeofIndexTupleData +
          (if t_info.testBit 15 then sizeofIndexAttributeBitMapData c else 0) ≤
        IndexInfoFindDataOffset c t_info ∧
      IndexInfoFindDataOffset c t_info <
        c.sizeofIndexTupleData +
          (if t_info.testBit 15 then sizeofIndexAttributeBitMapData c else 0) +
          c.MAXIMUM_ALIGNOF ∧
      ∀ b : Nat, b % c.MAXIMUM_ALIGNOF = 0 →
        c.sizeofIndexTupleData +
            (if t_info.testBit 15 then sizeofIndexAttributeBitMapData c else 0) ≤ b →
        IndexInfoFindDataOffset c t_info ≤ b := by
  rw [headerEnd_cases]
  unfold MAXALIGN
  rw [hA]
  refine ⟨TYPEALIGN_mod k _, le_TYPEALIGN _ _, TYPEALIGN_lt k _, ?_⟩
  intro b hb hle
  exact TYPEALIGN_le_of_boundary k _ b hb hle

/-- Witness for claim C2: the standard layout (8-byte header, 4-byte bitmap, 8-byte
boundary) and a `t_info` with the has-nulls bit set; the header and bitmap end at 12
and the data starts at 16. -/
theorem IndexInfoFindDataOffset_first_boundary_witness :
    standardConfig.MAXIMUM_ALIGNOF = 2 ^ 3 ∧
      IndexInfoFindDataOffset standardConfig 0x8010 = 16 ∧
      (IndexInfoFindDataOffset standardConfig 0x8010 % standardConfig.MAXIMUM_ALIGNOF = 0 ∧
        standardConfig.sizeofIndexTupleData +
            (if (0x8010 : Nat).testBit 15 then sizeofIndexAttributeBitMapData standardConfig
             else 0) ≤
          IndexInfoFindDataOffset standardConfig 0x8010 ∧
        IndexInfoFindDataOffset standardConfig 0x8010 <
          standardConfig.sizeofIndexTupleData +
            (if (0x8010 : Nat).testBit 15 then sizeofIndexAttributeBitMapData standardConfig
             else 0) +
            standardConfig.MAXIMUM_ALIGNOF ∧
        ∀ b : Nat, b % standardConfig.MAXIMUM_ALIGNOF = 0 →
          standardConfig.sizeofIndexTupleData +
              (if (0x8010 : Nat).testBit 15 then sizeofIndexAttributeBitMapData standardConfig
               else 0) ≤ b →
          IndexInfoFindDataOffset standardConfig 0x8010 ≤ b) :=
  ⟨by decide, by decide,
    IndexInfoFindDataOffset_first_boundary standardConfig 3 (by decide) 0x8010⟩

/-- Claim C3: `IndexTupleSize` returns exactly bits 12-0 of `t_info`, that is
`t_info mod 8192`, so the reported size is at most 8191 whatever the three high bits
are. -/
theorem IndexTupleSize_eq_mod (t_info : Nat) :
    IndexTupleSize t_info = t_info % 8192 ∧
      (∀ i : Nat, (IndexTupleSize t_info).testBit i = (decide (i < 13) && t_info.testBit i)) ∧
      IndexTupleSize t_info ≤ 8191 := by
  have h : IndexTupleSize t_info = t_info % 2 ^ 13 := by
    unfold IndexTupleSize INDEX_SIZE_MASK
    exact Nat.and_pow_two_sub_one_eq_mod t_info 13
  refine ⟨h, ?_, ?_⟩
  · intro i
    rw [h, Nat.testBit_mod_two_pow]
  · rw [h]
    have := Nat.mod_lt t_info (show 0 < 2 ^ 13 by decide)
    omega

/-- Claim C4: `IndexTupleHasNulls` is true exactly when bit 15 (`0x8000`) of `t_info` is
set and `IndexTupleHasVarwidths` exactly when bit 14 (`0x4000`) is set; the masked value
becomes `true` whenever it is non-zero, and no other bit has a say. -/
theorem IndexTupleHasNulls_HasVarwidths_eq (t_info : Nat) :
    IndexTupleHasNulls t_info = t_info.testBit 15 ∧
      IndexTupleHasVarwidths t_info = t_info.testBit 14 ∧
      IndexTupleHasNulls 0x8000 = true ∧
      IndexTupleHasVarwidths 0x4000 = true := by
  refine ⟨toBool_and_two_pow t_info 15, toBool_and_two_pow t_info 14, by decide, by decide⟩

/-! ## `index_getattr` -/

theorem index_getattr_nonulls {D : Type} (c : Config) (env : Env D) (tup : IndexTuple)
    (attnum : Int) (tupleDesc : D) (hatt : 1 ≤ attnum) (hnn : tup.t_info.testBit 15 = false) :
    index_getattr c env tup attnum tupleDesc =
      if (env.TupleDescCompactAttr tupleDesc (attnum - 1).toNat).attcacheoff ≥ 0 then
        some { value := env.fetchatt (env.TupleDescCompactAttr tupleDesc (attnum - 1).toNat) tup
                 (IndexInfoFindDataOffset c tup.t_info +
                   (env.TupleDescCompactAttr tupleDesc (attnum - 1).toNat).attcacheoff.toNat)
               isnull := false
               desc := tupleDesc
               trace := [Event.compactAttr (attnum - 1).toNat,
                 Event.fetchatt (IndexInfoFindDataOffset c tup.t_info +
                   (env.TupleDescCompactAttr tupleDesc (attnum - 1).toNat).attcacheoff.toNat)] }
      else
        some { value := (env.nocache_index_getattr tup attnum tupleDesc).1
               isnull := false
               desc := (env.nocache_index_getattr tup attnum tupleDesc).2
               trace := [Event.compactAttr (attnum - 1).toNat, Event.nocache attnum] } := by
  have h0 : ¬ attnum ≤ 0 := by omega
  have hb : IndexTupleHasNulls tup.t_info = false := by
    unfold IndexTupleHasNulls INDEX_NULL_MASK
    rw [← hnn]
    exact toBool_and_two_pow tup.t_info 15
  unfold index_getattr
  simp only [h0, hb, if_false, Bool.not_false, if_true]

theorem index_getattr_hasnulls {D : Type} (c : Config) (env : Env D) (tup : IndexTuple)
    (attnum : Int) (tupleDesc : D) (hatt : 1 ≤ attnum) (hn : tup.t_info.testBit 15 = true) :
    index_getattr c env tup attnum tupleDesc =
      if env.att_isnull (attnum - 1).toNat tup c.sizeofIndexTupleData then
        some { value := 0
               isnull := true
               desc := tupleDesc
               trace := [Event.att_isnull (attnum - 1).toNat c.sizeofIndexTupleData] }
      else
        some { value := (env.nocache_index_getattr tup attnum tupleDesc).1
               isnull := false
               desc := (env.nocache_index_getattr tup attnum tupleDesc).2
               trace := [Event.att_isnull (attnum - 1).toNat c.sizeofIndexTupleData,
                 Event.nocache attnum] } := by
  have h0 : ¬ attnum ≤ 0 := by omega
  have hb : IndexTupleHasNulls tup.t_info = true := by
    unfold IndexTupleHasNulls INDEX_NULL_MASK
    rw [← hn]
    exact toBool_and_two_pow tup.t_info 15
  unfold index_getattr
  simp only [h0, hb, if_false, Bool.not_true]
  rfl

/-- Claim C5: on a record whose has-nulls bit is clear, for an attribute number
`attnum >= 1` whose cached offset in the schema is known (`attcacheoff >= 0`, zero
included), `index_getattr` leaves the null flag false and returns what `fetchatt`
reads at byte position `IndexInfoFindDataOffset(t_info) + attcacheoff` of the record,
and `nocache_index_getattr` is not called. -/
theorem index_getattr_cached_offset {D : Type} (c : Config) (env : Env D) (tup : IndexTuple)
    (attnum : Int) (tupleDesc : D) (hatt : 1 ≤ attnum) (hnn : tup.t_info.testBit 15 = false)
    (hoff : 0 ≤ (env.TupleDescCompactAttr tupleDesc (attnum - 1).toNat).attcacheoff) :
    ∃ (pos : Nat) (r : GetAttr D),
      (pos : Int) = (IndexInfoFindDataOffset c tup.t_info : Int) +
        (env.TupleDescCompactAttr tupleDesc (attnum - 1).toNat).attcacheoff ∧
      index_getattr c env tup attnum tupleDesc = some r ∧
      r.isnull = false ∧
      r.value = env.fetchatt (env.TupleDescCompactAttr tupleDesc (attnum - 1).toNat) tup pos ∧
      r.trace = [Event.compactAttr (attnum - 1).toNat, Event.fetchatt pos] ∧
      calledNocache r.trace = false := by
  refine ⟨IndexInfoFindDataOffset c tup.t_info +
      (env.TupleDescCompactAttr tupleDesc (attnum - 1).toNat).attcacheoff.toNat,
    { value := env.fetchatt (env.TupleDescCompactAttr tupleDesc (attnum - 1).toNat) tup
        (IndexInfoFindDataOffset c tup.t_info +
          (env.TupleDescCompactAttr tupleDesc (attnum - 1).toNat).attcacheoff.toNat)
      isnull := false
      desc := tupleDesc
      trace := [Event.compactAttr (attnum - 1).toNat,
        Event.fetchatt (IndexInfoFindDataOffset c tup.t_info +
          (env.TupleDescCompactAttr tupleDesc (attnum - 1).toNat).attcacheoff.toNat)] },
    ?_, ?_, rfl, rfl, rfl, rfl⟩
  · rw [Nat.cast_add, Int.toNat_of_nonneg hoff]
  · rw [index_getattr_nonulls c env tup attnum tupleDesc hatt hnn, if_pos hoff]

/-- Witness for claim C5: attribute 2 of `sampleTuple`, whose cached offset is 4; the
value is the byte at position 8 + 4. -/
theorem index_getattr_cached_offset_witness :
    (1 : Int) ≤ 2 ∧ sampleTuple.t_info.testBit 15 = false ∧
      0 ≤ (listEnv.TupleDescCompactAttr sampleDesc ((2 : Int) - 1).toNat).attcacheoff ∧
      ∃ (pos : Nat) (r : GetAttr (List CompactAttribute)),
        (pos : Int) = (IndexInfoFindDataOffset standardConfig sampleTuple.t_info : Int) +
          (listEnv.TupleDescCompactAttr sampleDesc ((2 : Int) - 1).toNat).attcacheoff ∧
        index_getattr standardConfig listEnv sampleTuple 2 sampleDesc = some r ∧
        r.isnull = false ∧
        r.value = listEnv.fetchatt (listEnv.TupleDescCompactAttr sampleDesc ((2 : Int) - 1).toNat)
          sampleTuple pos ∧
        r.trace = [Event.compactAttr ((2 : Int) - 1).toNat, Event.fetchatt pos] ∧
        calledNocache r.trace = false :=
  ⟨by decide, by decide, by decide,
    index_getattr_cached_offset standardConfig listEnv sampleTuple 2 sampleDesc (by decide)
      (by decide) (by decide)⟩

/-- Claim C6: for `attnum >= 1`, `index_getattr` reports null exactly when the has-nulls
bit of the record is set and `att_isnull(attnum - 1)` holds on the bitmap at byte
offset `sizeof(IndexTupleData)`; then the value is 0 and `nocache_index_getattr` is
not called; in every other case the null flag is false. -/
theorem index_getattr_isnull_iff {D : Type} (c : Config) (env : Env D) (tup : IndexTuple)
    (attnum : Int) (tupleDesc : D) (hatt : 1 ≤ attnum) :
    ∃ r : GetAttr D,
      index_getattr c env tup attnum tupleDesc = some r ∧
      r.isnull =
        (tup.t_info.testBit 15 &&
          env.att_isnull (attnum - 1).toNat tup c.sizeofIndexTupleData) ∧
      (r.isnull = true → r.value = 0 ∧ calledNocache r.trace = false) := by
  cases hn : tup.t_info.testBit 15
  · rw [index_getattr_nonulls c env tup attnum tupleDesc hatt hn]
    split
    · exact ⟨_, rfl, by simp, by simp⟩
    · exact ⟨_, rfl, by simp, by simp⟩
  · rw [index_getattr_hasnulls c env tup attnum tupleDesc hatt hn]
    cases hb : env.att_isnull (attnum - 1).toNat tup c.sizeofIndexTupleData
    · exact ⟨_, rfl, by simp, by simp⟩
    · exact ⟨_, rfl, by simp, by simp [calledNocache]⟩

/-- Witness for claim C6: attribute 3 of `sampleTupleNulls`, which its bitmap marks. -/
theorem index_getattr_isnull_iff_witness :
    (1 : Int) ≤ 3 ∧
      ∃ r : GetAttr (List CompactAttribute),
        index_getattr standardConfig listEnv sampleTupleNulls 3 sampleDesc = some r ∧
        r.isnull =
          (sampleTupleNulls.t_info.testBit 15 &&
            listEnv.att_isnull ((3 : Int) - 1).toNat sampleTupleNulls
              standardConfig.sizeofIndexTupleData) ∧
        (r.isnull = true → r.value = 0 ∧ calledNocache r.trace = false) :=
  ⟨by decide, index_getattr_isnull_iff standardConfig listEnv sampleTupleNulls 3 sampleDesc
    (by decide)⟩

theorem att_isnull_eq_testBit (ATT : Nat) (tup : IndexTuple) (BITS : Nat) :
    att_isnull ATT tup BITS = (tup.mem.getD (BITS + ATT / 8) 0).testBit (ATT % 8) := by
  unfold att_isnull
  have h1 : ATT >>> 3 = ATT / 8 := Nat.shiftRight_eq_div_pow ATT 3
  have h2 : ATT &&& 0x07 = ATT % 8 := Nat.and_pow_two_sub_one_eq_mod ATT 3
  rw [h1, h2, Nat.one_shiftLeft]
  exact toBool_and_two_pow _ _

/-- Claim C7: the null bitmap uses one bit per attribute, set exactly for a null: on a
record with the has-nulls bit set, `index_getattr` reports attribute `i >= 1` as null
exactly when bit `(i - 1) mod 8` of bitmap byte `(i - 1) div 8` is 1, the bitmap being
the bytes that follow the header. -/
theorem index_getattr_null_bit {D : Type} (c : Config) (env : Env D) (tup : IndexTuple)
    (i : Nat) (tupleDesc : D) (hi : 1 ≤ i) (hn : tup.t_info.testBit 15 = true) :
    ∃ r : GetAttr D,
      index_getattr c { env with att_isnull := att_isnull } tup (i : Int) tupleDesc = some r ∧
      r.isnull =
        (tup.mem.getD (c.sizeofIndexTupleData + (i - 1) / 8) 0).testBit ((i - 1) % 8) := by
  have hatt : (1 : Int) ≤ (i : Int) := by omega
  have hidx : ((i : Int) - 1).toNat = i - 1 := by omega
  rw [index_getattr_hasnulls c _ tup (i : Int) tupleDesc hatt hn]
  simp only [hidx, att_isnull_eq_testBit]
  cases (tup.mem.getD (c.sizeofIndexTupleData + (i - 1) / 8) 0).testBit ((i - 1) % 8)
  · exact ⟨_, rfl, rfl⟩
  · exact ⟨_, rfl, rfl⟩

/-- Witness for claim C7: attribute 3 of `sampleTupleNulls`; bit 2 of bitmap byte 0,
which is `0b00000100`, is 1. -/
theorem index_getattr_null_bit_witness :
    1 ≤ 3 ∧ sampleTupleNulls.t_info.testBit 15 = true ∧
      (sampleTupleNulls.mem.getD (standardConfig.sizeofIndexTupleData + (3 - 1) / 8) 0).testBit
        ((3 - 1) % 8) = true ∧
      ∃ r : GetAttr (List CompactAttribute),
        index_getattr standardConfig { listEnv with att_isnull := att_isnull } sampleTupleNulls
          ((3 : Nat) : Int) sampleDesc = some r ∧
        r.isnull =
          (sampleTupleNulls.mem.getD (standardConfig.sizeofIndexTupleData + (3 - 1) / 8)
            0).testBit ((3 - 1) % 8) :=
  ⟨by decide, by decide, by decide,
    index_getattr_null_bit standardConfig listEnv sampleTupleNulls 3 sampleDesc (by decide)
      (by decide)⟩

/-- Claim C8: a record with nulls never takes the fixed-offset shortcut.  With the
has-nulls bit set and `attnum >= 1`, the result of `index_getattr` is the null result
or the result of `nocache_index_getattr`; the descriptor is not read and `fetchatt` is
not called; whatever the schema gives as attribute `attnum - 1` (any cached offset,
known or unknown) the result is the same; and for any two descriptors the same branch
is taken. -/
theorem index_getattr_hasnulls_ignores_cache {D : Type} (c : Config) (env : Env D)
    (tup : IndexTuple) (attnum : Int) (tupleDesc : D) (hatt : 1 ≤ attnum)
    (hn : tup.t_info.testBit 15 = true) :
    (index_getattr c env tup attnum tupleDesc =
        some { value := 0
               isnull := true
               desc := tupleDesc
               trace := [Event.att_isnull (attnum - 1).toNat c.sizeofIndexTupleData] } ∨
      index_getattr c env tup attnum tupleDesc =
        some { value := (env.nocache_index_getattr tup attnum tupleDesc).1
               isnull := false
               desc := (env.nocache_index_getattr tup attnum tupleDesc).2
               trace := [Event.att_isnull (attnum - 1).toNat c.sizeofIndexTupleData,
                 Event.nocache attnum] }) ∧
      (∃ r : GetAttr D, index_getattr c env tup attnum tupleDesc = some r ∧
        readDescriptor r.trace = false ∧ calledFetchatt r.trace = false) ∧
      (∀ lookup : D → Nat → CompactAttribute,
        index_getattr c { env with TupleDescCompactAttr := lookup } tup attnum tupleDesc =
          index_getattr c env tup attnum tupleDesc) ∧
      (∀ otherDesc : D,
        (index_getattr c env tup attnum otherDesc).map (fun r => (r.isnull, r.trace)) =
          (index_getattr c env tup attnum tupleDesc).map (fun r => (r.isnull, r.trace))) := by
  refine ⟨?_, ?_, ?_, ?_⟩
  · rw [index_getattr_hasnulls c env tup attnum tupleDesc hatt hn]
    cases env.att_isnull (attnum - 1).toNat tup c.sizeofIndexTupleData
    · exact Or.inr rfl
    · exact Or.inl rfl
  · rw [index_getattr_hasnulls c env tup attnum tupleDesc hatt hn]
    cases env.att_isnull (attnum - 1).toNat tup c.sizeofIndexTupleData
    · exact ⟨_, rfl, by simp [readDescriptor], by simp [calledFetchatt]⟩
    · exact ⟨_, rfl, by simp [readDescriptor], by simp [calledFetchatt]⟩
  · intro lookup
    rw [index_getattr_hasnulls c env tup attnum tupleDesc hatt hn,
      index_getattr_hasnulls c _ tup attnum tupleDesc hatt hn]
  · intro otherDesc
    rw [index_getattr_hasnulls c env tup attnum tupleDesc hatt hn,
      index_getattr_hasnulls c env tup attnum otherDesc hatt hn]
    cases env.att_isnull (attnum - 1).toNat tup c.sizeofIndexTupleData <;> rfl

/-- Witness for claim C8: attribute 2 of `sampleTupleNulls`, whose schema entry has the
known cached offset 4; the bitmap is consulted and then `nocache_index_getattr`. -/
theorem index_getattr_hasnulls_ignores_cache_witness :
    (1 : Int) ≤ 2 ∧ sampleTupleNulls.t_info.testBit 15 = true ∧
      (listEnv.TupleDescCompactAttr sampleDesc ((2 : Int) - 1).toNat).attcacheoff = 4 ∧
      (∃ r : GetAttr (List CompactAttribute),
        index_getattr standardConfig listEnv sampleTupleNulls 2 sampleDesc = some r ∧
        readDescriptor r.trace = false ∧ calledFetchatt r.trace = false) ∧
      (∀ lookup : List CompactAttribute → Nat → CompactAttribute,
        index_getattr standardConfig { listEnv with TupleDescCompactAttr := lookup }
            sampleTupleNulls 2 sampleDesc =
          index_getattr standardConfig listEnv sampleTupleNulls 2 sampleDesc) :=
  ⟨by decide, by decide, by decide,
    (index_getattr_hasnulls_ignores_cache standardConfig listEnv sampleTupleNulls 2 sampleDesc
      (by decide) (by decide)).2.1,
    (index_getattr_hasnulls_ignores_cache standardConfig listEnv sampleTupleNulls 2 sampleDesc
      (by decide) (by decide)).2.2.1⟩

/-! ## `MaxIndexTuplesPerPage` -/

theorem toInt32_le (n : Nat) : toInt32 n ≤ (n : Int) := by
  unfold toInt32
  have h : n % 2 ^ 32 ≤ n := Nat.mod_le n _
  split <;> omega

theorem toInt32_of_lt (n : Nat) (h : n < 2 ^ 31) : toInt32 n = (n : Int) := by
  unfold toInt32
  have h1 : n % 2 ^ 32 = n := Nat.mod_eq_of_lt (by omega)
  rw [h1, if_pos h]

theorem sizeSub_of_le (a b : Nat) (h : b ≤ a) : sizeSub a b = (a - b) % 2 ^ 64 := by
  unfold sizeSub
  omega

theorem one_le_minTupleFootprint (c : Config) : 1 ≤ minTupleFootprint c := by
  unfold minTupleFootprint MAXALIGN
  have h := le_TYPEALIGN c.MAXIMUM_ALIGNOF (c.sizeofIndexTupleData + 1)
  omega

theorem length_mul_le_spaceNeeded (c : Config) (sizes : List Nat)
    (hsz : ∀ s ∈ sizes, MAXALIGN c (c.sizeofIndexTupleData + 1) ≤ s) :
    sizes.length * minTupleFootprint c ≤ spaceNeeded c sizes := by
  induction sizes with
  | nil => simp [spaceNeeded]
  | cons s rest ih =>
    have hs : MAXALIGN c (c.sizeofIndexTupleData + 1) ≤ s := hsz s (List.mem_cons_self s rest)
    have hrest := ih (fun t ht => hsz t (List.mem_cons_of_mem s ht))
    unfold spaceNeeded at hrest ⊢
    simp only [List.map_cons, List.sum_cons, List.length_cons]
    unfold minTupleFootprint at hrest ⊢
    rw [Nat.add_mul]
    omega

/-- Claim C9: `MaxIndexTuplesPerPage` bounds the number of tuples on a page.  On a page
that is at least its header and whose size `BLCKSZ` is an `int`, if `N` records, each
of at least `MAXALIGN(sizeof(IndexTupleData) + 1)` bytes and with one line pointer of
`sizeof(ItemIdData)` bytes, fit together in `BLCKSZ - SizeOfPageHeaderData` bytes, then
`N <= MaxIndexTuplesPerPage`. -/
theorem length_le_MaxIndexTuplesPerPage (c : Config) (sizes : List Nat)
    (hpage : c.SizeOfPageHeaderData ≤ c.BLCKSZ) (hint : c.BLCKSZ < 2 ^ 31)
    (hsz : ∀ s ∈ sizes, MAXALIGN c (c.sizeofIndexTupleData + 1) ≤ s)
    (hfit : spaceNeeded c sizes ≤ c.BLCKSZ - c.SizeOfPageHeaderData) :
    (sizes.length : Int) ≤ MaxIndexTuplesPerPage c := by
  have hu : usablePageArea c = c.BLCKSZ - c.SizeOfPageHeaderData := by
    unfold usablePageArea
    rw [sizeSub_of_le _ _ hpage]
    exact Nat.mod_eq_of_lt (by omega)
  have hf := one_le_minTupleFootprint c
  have hlen := length_mul_le_spaceNeeded c sizes hsz
  have hq : sizes.length ≤ usablePageArea c / minTupleFootprint c := by
    rw [Nat.le_div_iff_mul_le (by omega)]
    omega
  have hle : usablePageArea c / minTupleFootprint c ≤ usablePageArea c := Nat.div_le_self _ _
  unfold MaxIndexTuplesPerPage
  rw [toInt32_of_lt _ (by omega)]
  exact_mod_cast hq

/-- Witness for claim C9: three records of 16, 16 and 24 bytes on a standard page. -/
theorem length_le_MaxIndexTuplesPerPage_witness :
    standardConfig.SizeOfPageHeaderData ≤ standardConfig.BLCKSZ ∧
      standardConfig.BLCKSZ < 2 ^ 31 ∧
      (∀ s ∈ [16, 16, 24], MAXALIGN standardConfig (standardConfig.sizeofIndexTupleData + 1) ≤ s) ∧
      spaceNeeded standardConfig [16, 16, 24] ≤
        standardConfig.BLCKSZ - standardConfig.SizeOfPageHeaderData ∧
      (([16, 16, 24] : List Nat).length : Int) ≤ MaxIndexTuplesPerPage standardConfig :=
  ⟨by decide, by decide, by decide, by decide,
    length_le_MaxIndexTuplesPerPage standardConfig [16, 16, 24] (by decide) (by decide)
      (by decide) (by decide)⟩

/-- Claim C10: for every page size that is at least the page-header size,
`MaxIndexTuplesPerPage` times the least footprint of a record,
`MAXALIGN(sizeof(IndexTupleData) + 1) + sizeof(ItemIdData)`, does not exceed the usable
page area `BLCKSZ - SizeOfPageHeaderData`. -/
theorem MaxIndexTuplesPerPage_mul_le (c : Config)
    (hpage : c.SizeOfPageHeaderData ≤ c.BLCKSZ) :
    MaxIndexTuplesPerPage c *
        ((MAXALIGN c (c.sizeofIndexTupleData + 1) + c.sizeofItemIdData : Nat) : Int) ≤
      (c.BLCKSZ : Int) - (c.SizeOfPageHeaderData : Int) := by
  have hu : usablePageArea c ≤ c.BLCKSZ - c.SizeOfPageHeaderData := by
    unfold usablePageArea
    rw [sizeSub_of_le _ _ hpage]
    exact Nat.mod_le _ _
  have hq : usablePageArea c / minTupleFootprint c * minTupleFootprint c ≤ usablePageArea c :=
    Nat.div_mul_le_self _ _
  have hc := toInt32_le (usablePageArea c / minTupleFootprint c)
  have hmul : toInt32 (usablePageArea c / minTupleFootprint c) * (minTupleFootprint c : Int) ≤
      ((usablePageArea c / minTupleFootprint c : Nat) : Int) * (minTupleFootprint c : Int) :=
    Int.mul_le_mul_of_nonneg_right hc (Int.ofNat_nonneg _)
  have hq2 : ((usablePageArea c / minTupleFootprint c : Nat) : Int) * (minTupleFootprint c : Int) ≤
      (usablePageArea c : Int) := by exact_mod_cast hq
  have hu2 : (usablePageArea c : Int) ≤ (c.BLCKSZ : Int) - (c.SizeOfPageHeaderData : Int) := by
    omega
  show toInt32 (usablePageArea c / minTupleFootprint c) * (minTupleFootprint c : Int) ≤ _
  omega

/-- Witness for claim C10: the standard build, where 408 records of 20 bytes take 8160
of the 8168 usable bytes. -/
theorem MaxIndexTuplesPerPage_mul_le_witness :
    standardConfig.SizeOfPageHeaderData ≤ standardConfig.BLCKSZ ∧
      MaxIndexTuplesPerPage standardConfig = 408 ∧
      MaxIndexTuplesPerPage standardConfig *
          ((MAXALIGN standardConfig (standardConfig.sizeofIndexTupleData + 1) +
            standardConfig.sizeofItemIdData : Nat) : Int) ≤
        (standardConfig.BLCKSZ : Int) - (standardConfig.SizeOfPageHeaderData : Int) :=
  ⟨by decide, by decide, MaxIndexTuplesPerPage_mul_le standardConfig (by decide)⟩

theorem MaxIndexTuplesPerPage_of_quotient_lt (c : Config)
    (hpage : c.SizeOfPageHeaderData ≤ c.BLCKSZ) (hsize : c.BLCKSZ < 2 ^ 64)
    (hq : (c.BLCKSZ - c.SizeOfPageHeaderData) /
      (MAXALIGN c (c.sizeofIndexTupleData + 1) + c.sizeofItemIdData) < 2 ^ 31) :
    MaxIndexTuplesPerPage c =
      (((c.BLCKSZ - c.SizeOfPageHeaderData) /
        (MAXALIGN c (c.sizeofIndexTupleData + 1) + c.sizeofItemIdData) : Nat) : Int) := by
  have hu : usablePageArea c = c.BLCKSZ - c.SizeOfPageHeaderData := by
    unfold usablePageArea
    rw [sizeSub_of_le _ _ hpage]
    exact Nat.mod_eq_of_lt (by omega)
  unfold MaxIndexTuplesPerPage minTupleFootprint
  rw [hu, toInt32_of_lt _ hq]

/-- Claim C11: `MaxIndexTuplesPerPage` is the integer (truncating) quotient
`(BLCKSZ - SizeOfPageHeaderData) / (MAXALIGN(sizeof(IndexTupleData) + 1) + sizeof(ItemIdData))`
for every choice of the constants of a build, in which the page holds its header and
`BLCKSZ` is an `int`; in the standard build it is `8168 / 20 = 408`. -/
theorem MaxIndexTuplesPerPage_eq_quotient (c : Config)
    (hpage : c.SizeOfPageHeaderData ≤ c.BLCKSZ) (hint : c.BLCKSZ < 2 ^ 31) :
    MaxIndexTuplesPerPage c =
        (((c.BLCKSZ - c.SizeOfPageHeaderData) /
          (MAXALIGN c (c.sizeofIndexTupleData + 1) + c.sizeofItemIdData) : Nat) : Int) ∧
      MaxIndexTuplesPerPage c =
        Int.tdiv ((c.BLCKSZ : Int) - (c.SizeOfPageHeaderData : Int))
          ((MAXALIGN c (c.sizeofIndexTupleData + 1) + c.sizeofItemIdData : Nat) : Int) ∧
      standardConfig.BLCKSZ - standardConfig.SizeOfPageHeaderData = 8168 ∧
      MAXALIGN standardConfig (standardConfig.sizeofIndexTupleData + 1) +
        standardConfig.sizeofItemIdData = 20 ∧
      MaxIndexTuplesPerPage standardConfig = 408 := by
  have hle : (c.BLCKSZ - c.SizeOfPageHeaderData) /
      (MAXALIGN c (c.sizeofIndexTupleData + 1) + c.sizeofItemIdData) ≤
      c.BLCKSZ - c.SizeOfPageHeaderData := Nat.div_le_self _ _
  have h1 := MaxIndexTuplesPerPage_of_quotient_lt c hpage (by omega) (by omega)
  refine ⟨h1, ?_, by decide, by decide, by decide⟩
  rw [h1, ← Int.ofNat_sub hpage]
  rfl

/-- Witness for claim C11: the standard build. -/
theorem MaxIndexTuplesPerPage_eq_quotient_witness :
    standardConfig.SizeOfPageHeaderData ≤ standardConfig.BLCKSZ ∧
      standardConfig.BLCKSZ < 2 ^ 31 ∧
      MaxIndexTuplesPerPage standardConfig =
        (((standardConfig.BLCKSZ - standardConfig.SizeOfPageHeaderData) /
          (MAXALIGN standardConfig (standardConfig.sizeofIndexTupleData + 1) +
            standardConfig.sizeofItemIdData) : Nat) : Int) :=
  ⟨by decide, by decide,
    (MaxIndexTuplesPerPage_eq_quotient standardConfig (by decide) (by decide)).1⟩

theorem spaceNeeded_cons (c : Config) (s : Nat) (rest : List Nat) :
    spaceNeeded c (s :: rest) = s + c.sizeofItemIdData + spaceNeeded c rest := by
  simp [spaceNeeded]

theorem spaceNeeded_replicate (c : Config) (n s : Nat) :
    spaceNeeded c (List.replicate n s) = n * (s + c.sizeofItemIdData) := by
  induction n with
  | zero => simp [spaceNeeded]
  | succ n ih =>
    rw [List.replicate_succ, spaceNeeded_cons, ih, Nat.succ_mul]
    omega

theorem MAXALIGN_succ_le (c : Config) (k : Nat) (hA : c.MAXIMUM_ALIGNOF = 2 ^ k) (LEN : Nat) :
    MAXALIGN c (LEN + 1) ≤ MAXALIGN c LEN + c.MAXIMUM_ALIGNOF := by
  unfold MAXALIGN
  rw [hA]
  have h1 := TYPEALIGN_lt k (LEN + 1)
  have h2 := le_TYPEALIGN (2 ^ k) LEN
  omega

/-- Claim C12: the bound stays safe on a btree non-leaf page whose first tuple has no
key.  On a page whose special space is at least one `MAXALIGN` quantum, if `N >= 1`
tuples, the first of at least `MAXALIGN(sizeof(IndexTupleData))` bytes and every other of
at least `MAXALIGN(sizeof(IndexTupleData) + 1)` bytes, each with one line pointer, fit in
`BLCKSZ - SizeOfPageHeaderData` less the special space, then `N <= MaxIndexTuplesPerPage`. -/
theorem length_le_MaxIndexTuplesPerPage_btree (c : Config) (k special first : Nat)
    (rest : List Nat) (hA : c.MAXIMUM_ALIGNOF = 2 ^ k) (hspecial : c.MAXIMUM_ALIGNOF ≤ special)
    (hpage : c.SizeOfPageHeaderData + special ≤ c.BLCKSZ) (hint : c.BLCKSZ < 2 ^ 31)
    (hfirst : MAXALIGN c c.sizeofIndexTupleData ≤ first)
    (hrest : ∀ s ∈ rest, MAXALIGN c (c.sizeofIndexTupleData + 1) ≤ s)
    (hfit : spaceNeeded c (first :: rest) ≤
      c.BLCKSZ - c.SizeOfPageHeaderData - special) :
    ((first :: rest).length : Int) ≤ MaxIndexTuplesPerPage c := by
  have hu : usablePageArea c = c.BLCKSZ - c.SizeOfPageHeaderData := by
    unfold usablePageArea
    rw [sizeSub_of_le _ _ (by omega)]
    exact Nat.mod_eq_of_lt (by omega)
  have hf := one_le_minTupleFootprint c
  have hlen := length_mul_le_spaceNeeded c rest hrest
  have hstep := MAXALIGN_succ_le c k hA c.sizeofIndexTupleData
  have hcons := spaceNeeded_cons c first rest
  have hfoot : minTupleFootprint c =
      MAXALIGN c (c.sizeofIndexTupleData + 1) + c.sizeofItemIdData := rfl
  have hmul : (rest.length + 1) * minTupleFootprint c =
      rest.length * minTupleFootprint c + minTupleFootprint c := by
    rw [Nat.add_mul, Nat.one_mul]
  have hq : (first :: rest).length ≤ usablePageArea c / minTupleFootprint c := by
    rw [Nat.le_div_iff_mul_le (by omega), List.length_cons, hmul]
    omega
  have hle : usablePageArea c / minTupleFootprint c ≤ usablePageArea c := Nat.div_le_self _ _
  unfold MaxIndexTuplesPerPage
  rw [toInt32_of_lt _ (by omega)]
  exact_mod_cast hq

/-- Witness for claim C12: a standard page with 16 bytes of special space, filled to the
last byte by a first tuple of 8 bytes and 407 tuples of 16 bytes. -/
theorem length_le_MaxIndexTuplesPerPage_btree_witness :
    standardConfig.MAXIMUM_ALIGNOF = 2 ^ 3 ∧ standardConfig.MAXIMUM_ALIGNOF ≤ 16 ∧
      standardConfig.SizeOfPageHeaderData + 16 ≤ standardConfig.BLCKSZ ∧
      standardConfig.BLCKSZ < 2 ^ 31 ∧
      MAXALIGN standardConfig standardConfig.sizeofIndexTupleData ≤ 8 ∧
      spaceNeeded standardConfig (8 :: List.replicate 407 16) =
        standardConfig.BLCKSZ - standardConfig.SizeOfPageHeaderData - 16 ∧
      ((8 :: List.replicate 407 16).length : Int) ≤ MaxIndexTuplesPerPage standardConfig :=
  ⟨by decide, by decide, by decide, by decide, by decide, by
    rw [spaceNeeded_cons, spaceNeeded_replicate]
    decide, length_le_MaxIndexTuplesPerPage_btree standardConfig 3 16 8
      (List.replicate 407 16) (by decide) (by decide) (by decide) (by decide) (by decide)
      (by
        intro s hs
        rw [List.eq_of_mem_replicate hs]
        decide)
      (by
        rw [spaceNeeded_cons, spaceNeeded_replicate]
        decide)⟩

/-! ## The null bitmap -/

/-- Claim C13: the null bitmap has the fixed length `(INDEX_MAX_KEYS + 8 - 1) / 8` bytes,
a function of the build alone; that length is the least number of bytes `b` with
`8 * b >= INDEX_MAX_KEYS`, so every attribute index below `INDEX_MAX_KEYS` has its byte
`index >> 3` inside the bitmap. -/
theorem sizeofIndexAttributeBitMapData_ceil (c : Config) :
    c.INDEX_MAX_KEYS ≤ 8 * sizeofIndexAttributeBitMapData c ∧
      (∀ b : Nat, c.INDEX_MAX_KEYS ≤ 8 * b → sizeofIndexAttributeBitMapData c ≤ b) ∧
      (∀ i : Nat, i < c.INDEX_MAX_KEYS → i >>> 3 < sizeofIndexAttributeBitMapData c) ∧
      sizeofIndexAttributeBitMapData standardConfig = 4 := by
  unfold sizeofIndexAttributeBitMapData
  refine ⟨by omega, fun b hb => by omega, fun i hi => ?_, by decide⟩
  rw [Nat.shiftRight_eq_div_pow]
  have : (2 : Nat) ^ 3 = 8 := by decide
  omega

/-- Witness for claim C13: the standard build, `INDEX_MAX_KEYS = 32`; the last attribute
index 31 lies in byte 3 of the 4 bytes. -/
theorem sizeofIndexAttributeBitMapData_ceil_witness :
    standardConfig.INDEX_MAX_KEYS ≤ 8 * 4 ∧ 31 < standardConfig.INDEX_MAX_KEYS ∧
      sizeofIndexAttributeBitMapData standardConfig ≤ 4 ∧
      31 >>> 3 < sizeofIndexAttributeBitMapData standardConfig :=
  ⟨by decide, by decide,
    (sizeofIndexAttributeBitMapData_ceil standardConfig).2.1 4 (by decide),
    (sizeofIndexAttributeBitMapData_ceil standardConfig).2.2.1 31 (by decide)⟩

/-! ## The slow path of `index_getattr` -/

/-- Claim C16: for `attnum >= 1`, `index_getattr` calls
`nocache_index_getattr(tup, attnum, tupleDesc)` exactly when the has-nulls bit is clear and
the cached offset of attribute `attnum - 1` is negative, or the has-nulls bit is set and
the bitmap does not mark attribute `attnum - 1` null; it then returns the result of that
call unchanged, with the null flag false. -/
theorem index_getattr_calls_nocache_iff {D : Type} (c : Config) (env : Env D)
    (tup : IndexTuple) (attnum : Int) (tupleDesc : D) (hatt : 1 ≤ attnum) :
    ∃ r : GetAttr D,
      index_getattr c env tup attnum tupleDesc = some r ∧
      calledNocache r.trace =
        ((!tup.t_info.testBit 15 &&
            decide ((env.TupleDescCompactAttr tupleDesc (attnum - 1).toNat).attcacheoff < 0)) ||
          (tup.t_info.testBit 15 &&
            !env.att_isnull (attnum - 1).toNat tup c.sizeofIndexTupleData)) ∧
      (calledNocache r.trace = true →
        Event.nocache attnum ∈ r.trace ∧
        r.value = (env.nocache_index_getattr tup attnum tupleDesc).1 ∧
        r.desc = (env.nocache_index_getattr tup attnum tupleDesc).2 ∧
        r.isnull = false) := by
  cases hn : tup.t_info.testBit 15
  · rw [index_getattr_nonulls c env tup attnum tupleDesc hatt hn]
    by_cases hoff : (env.TupleDescCompactAttr tupleDesc (attnum - 1).toNat).attcacheoff ≥ 0
    · rw [if_pos hoff]
      have hlt : decide ((env.TupleDescCompactAttr tupleDesc (attnum - 1).toNat).attcacheoff
          < 0) = false := decide_eq_false (by omega)
      exact ⟨_, rfl, by rw [hlt]; simp [calledNocache], by simp [calledNocache]⟩
    · rw [if_neg hoff]
      have hlt : decide ((env.TupleDescCompactAttr tupleDesc (attnum - 1).toNat).attcacheoff
          < 0) = true := decide_eq_true (by omega)
      exact ⟨_, rfl, by rw [hlt]; simp [calledNocache], by simp⟩
  · rw [index_getattr_hasnulls c env tup attnum tupleDesc hatt hn]
    cases hb : env.att_isnull (attnum - 1).toNat tup c.sizeofIndexTupleData
    · exact ⟨_, rfl, by simp [calledNocache], by simp⟩
    · exact ⟨_, rfl, by simp [calledNocache], by simp [calledNocache]⟩

/-- Witness for claim C16: attribute 3 of `sampleTuple`, whose cached offset is unknown. -/
theorem index_getattr_calls_nocache_iff_witness :
    (1 : Int) ≤ 3 ∧
      (listEnv.TupleDescCompactAttr sampleDesc ((3 : Int) - 1).toNat).attcacheoff < 0 ∧
      ∃ r : GetAttr (List CompactAttribute),
        index_getattr standardConfig listEnv sampleTuple 3 sampleDesc = some r ∧
        calledNocache r.trace =
          ((!sampleTuple.t_info.testBit 15 &&
              decide ((listEnv.TupleDescCompactAttr sampleDesc ((3 : Int) - 1).toNat).attcacheoff
                < 0)) ||
            (sampleTuple.t_info.testBit 15 &&
              !listEnv.att_isnull ((3 : Int) - 1).toNat sampleTuple
                standardConfig.sizeofIndexTupleData)) ∧
        (calledNocache r.trace = true →
          Event.nocache 3 ∈ r.trace ∧
          r.value = (listEnv.nocache_index_getattr sampleTuple 3 sampleDesc).1 ∧
          r.desc = (listEnv.nocache_index_getattr sampleTuple 3 sampleDesc).2 ∧
          r.isnull = false) :=
  ⟨by decide, by decide,
    index_getattr_calls_nocache_iff standardConfig listEnv sampleTuple 3 sampleDesc (by decide)⟩

/-! ## The decomposition of `t_info` -/

theorem testBit_ite_two_pow (b : Bool) (k i : Nat) :
    (if b then 2 ^ k else 0).testBit i = (b && decide (k = i)) := by
  cases b
  · simp
  · simp [Nat.testBit_two_pow]

theorem testBit_composeInfo (s : Nat) (n v r : Bool) (i : Nat) :
    (composeInfo s n v r).testBit i =
      (s.testBit i || (n && decide (15 = i)) || (v && decide (14 = i)) ||
        (r && decide (13 = i))) := by
  have h15 : INDEX_NULL_MASK = 2 ^ 15 := by decide
  have h14 : INDEX_VAR_MASK = 2 ^ 14 := by decide
  have h13 : INDEX_AM_RESERVED_BIT = 2 ^ 13 := by decide
  unfold composeInfo
  rw [h15, h14, h13, Nat.testBit_or, Nat.testBit_or, Nat.testBit_or, testBit_ite_two_pow,
    testBit_ite_two_pow, testBit_ite_two_pow]

theorem testBit_eq_false_of_lt (s k i : Nat) (hs : s < 2 ^ k) (hi : k ≤ i) :
    s.testBit i = false :=
  Nat.testBit_lt_two_pow (Nat.lt_of_lt_of_le hs (Nat.pow_le_pow_right (by decide) hi))

theorem IndexTupleSize_testBit (t_info i : Nat) :
    (IndexTupleSize t_info).testBit i = (decide (i < 13) && t_info.testBit i) := by
  have h : IndexTupleSize t_info = t_info % 2 ^ 13 := by
    unfold IndexTupleSize INDEX_SIZE_MASK
    exact Nat.and_pow_two_sub_one_eq_mod t_info 13
  rw [h, Nat.testBit_mod_two_pow]

theorem IndexTupleHasNulls_testBit (t_info : Nat) :
    IndexTupleHasNulls t_info = t_info.testBit 15 :=
  toBool_and_two_pow t_info 15

theorem IndexTupleHasVarwidths_testBit (t_info : Nat) :
    IndexTupleHasVarwidths t_info = t_info.testBit 14 :=
  toBool_and_two_pow t_info 14

theorem IndexTupleAmReserved_testBit (t_info : Nat) :
    IndexTupleAmReserved t_info = t_info.testBit 13 :=
  toBool_and_two_pow t_info 13

theorem composeInfo_decode (t : Nat) (ht : t < 65536) :
    composeInfo (IndexTupleSize t) (IndexTupleHasNulls t) (IndexTupleHasVarwidths t)
      (IndexTupleAmReserved t) = t := by
  apply Nat.eq_of_testBit_eq
  intro i
  rw [testBit_composeInfo, IndexTupleSize_testBit, IndexTupleHasNulls_testBit,
    IndexTupleHasVarwidths_testBit, IndexTupleAmReserved_testBit]
  by_cases h13 : i < 13
  · have e1 : ¬ 15 = i := by omega
    have e2 : ¬ 14 = i := by omega
    have e3 : ¬ 13 = i := by omega
    simp [h13, e1, e2, e3]
  · by_cases h16 : 16 ≤ i
    · have e1 : ¬ 15 = i := by omega
      have e2 : ¬ 14 = i := by omega
      have e3 : ¬ 13 = i := by omega
      have hz : t.testBit i = false := testBit_eq_false_of_lt t 16 i ht h16
      simp [h13, e1, e2, e3, hz]
    · have hcases : i = 13 ∨ i = 14 ∨ i = 15 := by omega
      rcases hcases with rfl | rfl | rfl <;> simp

theorem decode_composeInfo (s : Nat) (n v r : Bool) (hs : s ≤ 8191) :
    IndexTupleSize (composeInfo s n v r) = s ∧
      IndexTupleHasNulls (composeInfo s n v r) = n ∧
      IndexTupleHasVarwidths (composeInfo s n v r) = v ∧
      IndexTupleAmReserved (composeInfo s n v r) = r ∧
      composeInfo s n v r < 65536 := by
  have hs13 : s < 2 ^ 13 := by
    have : (2 : Nat) ^ 13 = 8192 := by decide
    omega
  have hbit : ∀ i, 13 ≤ i → s.testBit i = false := fun i hi =>
    testBit_eq_false_of_lt s 13 i hs13 hi
  refine ⟨?_, ?_, ?_, ?_, ?_⟩
  · apply Nat.eq_of_testBit_eq
    intro i
    rw [IndexTupleSize_testBit, testBit_composeInfo]
    by_cases h13 : i < 13
    · have e1 : ¬ 15 = i := by omega
      have e2 : ¬ 14 = i := by omega
      have e3 : ¬ 13 = i := by omega
      simp [h13, e1, e2, e3]
    · simp [h13, hbit i (by omega)]
  · rw [IndexTupleHasNulls_testBit, testBit_composeInfo, hbit 15 (by decide)]
    simp
  · rw [IndexTupleHasVarwidths_testBit, testBit_composeInfo, hbit 14 (by decide)]
    simp
  · rw [IndexTupleAmReserved_testBit, testBit_composeInfo, hbit 13 (by decide)]
    simp
  · have h16 : (65536 : Nat) = 2 ^ 16 := by decide
    rw [h16]
    apply Nat.lt_of_testBit 16
    · rw [testBit_composeInfo, hbit 16 (by decide)]
      simp
    · exact Nat.testBit_two_pow_self
    · intro j hj
      rw [testBit_composeInfo, hbit j (by omega), Nat.testBit_two_pow]
      have e1 : ¬ 15 = j := by omega
      have e2 : ¬ 14 = j := by omega
      have e3 : ¬ 13 = j := by omega
      have e4 : ¬ 16 = j := by omega
      simp [e1, e2, e3, e4]

/-- Claim C17: the header field decomposes losslessly.  The masks `0x1FFF`, `0x2000`,
`0x4000` and `0x8000` are pairwise disjoint and together cover all 16 bits; a 16-bit
`t_info` is put together again from its size and its three flags; and for a size
`s <= 8191` and flags `n`, `v`, `r` the field
`s | (n ? 0x8000 : 0) | (v ? 0x4000 : 0) | (r ? 0x2000 : 0)` is a 16-bit value that decodes
back to `s`, `n`, `v` and `r`. -/
theorem t_info_decomposition (t s : Nat) (n v r : Bool) (ht : t < 65536) (hs : s ≤ 8191) :
    (INDEX_SIZE_MASK &&& INDEX_AM_RESERVED_BIT = 0 ∧ INDEX_SIZE_MASK &&& INDEX_VAR_MASK = 0 ∧
        INDEX_SIZE_MASK &&& INDEX_NULL_MASK = 0 ∧
        INDEX_AM_RESERVED_BIT &&& INDEX_VAR_MASK = 0 ∧
        INDEX_AM_RESERVED_BIT &&& INDEX_NULL_MASK = 0 ∧
        INDEX_VAR_MASK &&& INDEX_NULL_MASK = 0 ∧
        INDEX_SIZE_MASK ||| INDEX_AM_RESERVED_BIT ||| INDEX_VAR_MASK ||| INDEX_NULL_MASK =
          0xFFFF) ∧
      (IndexTupleSize t ≤ 8191 ∧
        composeInfo (IndexTupleSize t) (IndexTupleHasNulls t) (IndexTupleHasVarwidths t)
          (IndexTupleAmReserved t) = t) ∧
      (composeInfo s n v r < 65536 ∧
        IndexTupleSize (composeInfo s n v r) = s ∧
        IndexTupleAmReserved (composeInfo s n v r) = r ∧
        IndexTupleHasVarwidths (composeInfo s n v r) = v ∧
        IndexTupleHasNulls (composeInfo s n v r) = n) := by
  obtain ⟨h1, h2, h3, h4, h5⟩ := decode_composeInfo s n v r hs
  refine ⟨by decide, ⟨?_, composeInfo_decode t ht⟩, h5, h1, h4, h3, h2⟩
  have hm : IndexTupleSize t = t % 2 ^ 13 := by
    unfold IndexTupleSize INDEX_SIZE_MASK
    exact Nat.and_pow_two_sub_one_eq_mod t 13
  have := Nat.mod_lt t (show 0 < 2 ^ 13 by decide)
  omega

/-- Witness for claim C17: `t_info = 0xA123` is size `0x123` with the has-nulls and the
reserved bit; size 100 with the has-nulls and the has-var-width bit is `0xC064`. -/
theorem t_info_decomposition_witness :
    (0xA123 : Nat) < 65536 ∧ (100 : Nat) ≤ 8191 ∧
      IndexTupleSize 0xA123 = 0x123 ∧ IndexTupleHasNulls 0xA123 = true ∧
      IndexTupleHasVarwidths 0xA123 = false ∧ IndexTupleAmReserved 0xA123 = true ∧
      composeInfo 100 true true false = 0xC064 ∧
      (IndexTupleSize 0xA123 ≤ 8191 ∧
        composeInfo (IndexTupleSize 0xA123) (IndexTupleHasNulls 0xA123)
          (IndexTupleHasVarwidths 0xA123) (IndexTupleAmReserved 0xA123) = 0xA123) ∧
      (composeInfo 100 true true false < 65536 ∧
        IndexTupleSize (composeInfo 100 true true false) = 100 ∧
        IndexTupleAmReserved (composeInfo 100 true true false) = false ∧
        IndexTupleHasVarwidths (composeInfo 100 true true false) = true ∧
        IndexTupleHasNulls (composeInfo 100 true true false) = true) :=
  ⟨by decide, by decide, by decide, by decide, by decide, by decide, by decide,
    (t_info_decomposition 0xA123 100 true true false (by decide) (by decide)).2.1,
    (t_info_decomposition 0xA123 100 true true false (by decide) (by decide)).2.2⟩

/-! ## The reserved bit -/

theorem IndexInfoFindDataOffset_congr (c : Config) (t x : Nat)
    (h : x.testBit 15 = t.testBit 15) :
    IndexInfoFindDataOffset c x = IndexInfoFindDataOffset c t := by
  rw [headerEnd_cases, headerEnd_cases, h]

theorem queries_congr (c : Config) (t x : Nat)
    (h : ∀ i, i ≠ 13 → x.testBit i = t.testBit i) :
    IndexTupleSize x = IndexTupleSize t ∧ IndexTupleHasNulls x = IndexTupleHasNulls t ∧
      IndexTupleHasVarwidths x = IndexTupleHasVarwidths t ∧
      IndexInfoFindDataOffset c x = IndexInfoFindDataOffset c t := by
  refine ⟨?_, ?_, ?_, IndexInfoFindDataOffset_congr c t x (h 15 (by decide))⟩
  · apply Nat.eq_of_testBit_eq
    intro i
    rw [IndexTupleSize_testBit, IndexTupleSize_testBit]
    by_cases hi : i < 13
    · rw [h i (by omega)]
    · simp [hi]
  · rw [IndexTupleHasNulls_testBit, IndexTupleHasNulls_testBit, h 15 (by decide)]
  · rw [IndexTupleHasVarwidths_testBit, IndexTupleHasVarwidths_testBit, h 14 (by decide)]

theorem andNot_reserved_testBit (t i : Nat) (hi : i ≠ 13) :
    (andNot t INDEX_AM_RESERVED_BIT).testBit i = t.testBit i := by
  have hmask : INDEX_AM_RESERVED_BIT = 2 ^ 13 := by decide
  unfold andNot
  rw [hmask, Nat.and_two_pow]
  cases hb : t.testBit 13
  · simp
  · have hq : t / 2 ^ 13 % 2 = 1 := by
      rw [Nat.testBit_to_div_mod] at hb
      exact of_decide_eq_true hb
    have hdecomp := Nat.div_add_mod t (2 ^ 13)
    have hlo := Nat.mod_lt t (show 0 < 2 ^ 13 by decide)
    have hsub : t - (true.toNat * 2 ^ 13) = 2 ^ 13 * (t / 2 ^ 13 - 1) + t % 2 ^ 13 := by
      simp only [Bool.toNat_true, Nat.one_mul]
      have : 2 ^ 13 * (t / 2 ^ 13 - 1) = 2 ^ 13 * (t / 2 ^ 13) - 2 ^ 13 := by
        rw [Nat.mul_sub, Nat.mul_one]
      have hge : 1 ≤ t / 2 ^ 13 := by omega
      have hge2 : 2 ^ 13 * 1 ≤ 2 ^ 13 * (t / 2 ^ 13) := Nat.mul_le_mul_left _ hge
      omega
    have ht : t.testBit i = (2 ^ 13 * (t / 2 ^ 13) + t % 2 ^ 13).testBit i := by rw [hdecomp]
    rw [hsub, ht, Nat.testBit_mul_pow_two_add _ hlo, Nat.testBit_mul_pow_two_add _ hlo]
    by_cases hlt : i < 13
    · simp [hlt]
    · simp only [hlt, if_false]
      obtain ⟨j, hj⟩ : ∃ j, i - 13 = j + 1 := ⟨i - 14, by omega⟩
      rw [hj, Nat.testBit_succ, Nat.testBit_succ]
      have : (t / 2 ^ 13 - 1) / 2 = t / 2 ^ 13 / 2 := by omega
      rw [this]

/-- Claim C18: the reserved bit is opaque to the header queries.  Setting, clearing or
toggling bit 13 (`INDEX_AM_RESERVED_BIT`) of `t_info` leaves `IndexTupleSize`,
`IndexTupleHasNulls`, `IndexTupleHasVarwidths` and `IndexInfoFindDataOffset` unchanged, and
`IndexInfoFindDataOffset` is unchanged by any change to bits 0 to 14. -/
theorem reserved_bit_opaque (c : Config) (t_info : Nat) :
    (IndexTupleSize (t_info ||| INDEX_AM_RESERVED_BIT) = IndexTupleSize t_info ∧
        IndexTupleHasNulls (t_info ||| INDEX_AM_RESERVED_BIT) = IndexTupleHasNulls t_info ∧
        IndexTupleHasVarwidths (t_info ||| INDEX_AM_RESERVED_BIT) =
          IndexTupleHasVarwidths t_info ∧
        IndexInfoFindDataOffset c (t_info ||| INDEX_AM_RESERVED_BIT) =
          IndexInfoFindDataOffset c t_info) ∧
      (IndexTupleSize (andNot t_info INDEX_AM_RESERVED_BIT) = IndexTupleSize t_info ∧
        IndexTupleHasNulls (andNot t_info INDEX_AM_RESERVED_BIT) = IndexTupleHasNulls t_info ∧
        IndexTupleHasVarwidths (andNot t_info INDEX_AM_RESERVED_BIT) =
          IndexTupleHasVarwidths t_info ∧
        IndexInfoFindDataOffset c (andNot t_info INDEX_AM_RESERVED_BIT) =
          IndexInfoFindDataOffset c t_info) ∧
      (IndexTupleSize (t_info ^^^ INDEX_AM_RESERVED_BIT) = IndexTupleSize t_info ∧
        IndexTupleHasNulls (t_info ^^^ INDEX_AM_RESERVED_BIT) = IndexTupleHasNulls t_info ∧
        IndexTupleHasVarwidths (t_info ^^^ INDEX_AM_RESERVED_BIT) =
          IndexTupleHasVarwidths t_info ∧
        IndexInfoFindDataOffset c (t_info ^^^ INDEX_AM_RESERVED_BIT) =
          IndexInfoFindDataOffset c t_info) ∧
      (∀ m : Nat, IndexInfoFindDataOffset c (t_info ^^^ (m &&& 0x7FFF)) =
        IndexInfoFindDataOffset c t_info) ∧
      IndexTupleAmReserved (t_info ||| INDEX_AM_RESERVED_BIT) = true ∧
      IndexTupleAmReserved (andNot t_info INDEX_AM_RESERVED_BIT) = false ∧
      IndexTupleAmReserved (t_info ^^^ INDEX_AM_RESERVED_BIT) = !IndexTupleAmReserved t_info := by
  have hmask : INDEX_AM_RESERVED_BIT = 2 ^ 13 := by decide
  refine ⟨queries_congr c _ _ ?_, queries_congr c _ _ ?_, queries_congr c _ _ ?_, ?_, ?_, ?_, ?_⟩
  · intro i hi
    have : ¬ 13 = i := fun h => hi h.symm
    rw [hmask, Nat.testBit_or, Nat.testBit_two_pow]
    simp [this]
  · intro i hi
    exact andNot_reserved_testBit _ i hi
  · intro i hi
    have : ¬ 13 = i := fun h => hi h.symm
    rw [hmask, Nat.testBit_xor, Nat.testBit_two_pow]
    simp [this]
  · intro m
    apply IndexInfoFindDataOffset_congr
    have h7 : (0x7FFF : Nat) = 2 ^ 15 - 1 := by decide
    rw [Nat.testBit_xor, Nat.testBit_and, h7, Nat.testBit_two_pow_sub_one]
    simp
  · rw [IndexTupleAmReserved_testBit, hmask, Nat.testBit_or, Nat.testBit_two_pow_self]
    simp
  · rw [IndexTupleAmReserved_testBit]
    unfold andNot
    rw [hmask, Nat.and_two_pow]
    cases hb : t_info.testBit 13
    · simpa using hb
    · have hq : t_info / 2 ^ 13 % 2 = 1 := by
        rw [Nat.testBit_to_div_mod] at hb
        exact of_decide_eq_true hb
      rw [Nat.testBit_to_div_mod]
      simp only [Bool.toNat_true, Nat.one_mul, decide_eq_false_iff_not]
      omega
  · rw [IndexTupleAmReserved_testBit, IndexTupleAmReserved_testBit, hmask, Nat.testBit_xor,
      Nat.testBit_two_pow_self]
    simp

/-! ## Encoding and decoding -/

theorem fillData_prefix (desc : List CompactAttribute) :
    ∀ (values : List (List Nat)) (isnull : List Bool) (data : List Nat),
      ∃ t, fillData desc values isnull data = data ++ t := by
  induction desc with
  | nil => intro values isnull data; exact ⟨[], by simp [fillData]⟩
  | cons a desc ih =>
    intro values isnull data
    cases values with
    | nil => exact ⟨[], by simp [fillData]⟩
    | cons v values =>
      cases isnull with
      | nil => exact ⟨[], by simp [fillData]⟩
      | cons n isnull =>
        cases n
        · obtain ⟨t, ht⟩ := ih values isnull
            (data ++ List.replicate (att_align data.length a.attalignby - data.length) 0 ++
              attEncoded a v)
          refine ⟨List.replicate (att_align data.length a.attalignby - data.length) 0 ++
            attEncoded a v ++ t, ?_⟩
          simp only [fillData, Bool.false_eq_true, if_false]
          rw [ht]
          simp only [List.append_assoc]
        · obtain ⟨t, ht⟩ := ih values isnull data
          exact ⟨t, by simp only [fillData, if_true]; exact ht⟩

theorem getD_add_of_drop (mem rest : List Nat) (pos k : Nat) (l : List Nat)
    (h : mem.drop pos = l ++ rest) (hk : k < l.length) :
    mem.getD (pos + k) 0 = l.getD k 0 := by
  rw [List.getD_eq_getElem?_getD, List.getD_eq_getElem?_getD, ← List.getElem?_drop, h,
    List.getElem?_append_left hk]

theorem decodeLength_encodeLength (mem rest : List Nat) (pos n : Nat) (hn : n < 2 ^ 32)
    (h : mem.drop pos = encodeLength n ++ rest) : decodeLength mem pos = n := by
  have h0 := getD_add_of_drop mem rest pos 0 (encodeLength n) h (by simp [encodeLength])
  have h1 := getD_add_of_drop mem rest pos 1 (encodeLength n) h (by simp [encodeLength])
  have h2 := getD_add_of_drop mem rest pos 2 (encodeLength n) h (by simp [encodeLength])
  have h3 := getD_add_of_drop mem rest pos 3 (encodeLength n) h (by simp [encodeLength])
  unfold decodeLength
  rw [Nat.add_zero] at h0
  rw [h0, h1, h2, h3]
  simp only [encodeLength, List.getD_cons_zero, List.getD_cons_succ]
  omega

theorem attEncoded_length (a : CompactAttribute) (v : List Nat) :
    (attEncoded a v).length = if a.attlen < 0 then VARHDRSZ + v.length else v.length := by
  unfold attEncoded
  split
  · simp [encodeLength, VARHDRSZ]
    omega
  · rfl

theorem attrBytes_attEncoded (a : CompactAttribute) (v : List Nat) (tup : IndexTuple)
    (pos : Nat) (rest : List Nat) (hfit : a.attlen < 0 ∨ v.length = a.attlen.toNat)
    (hlen : v.length < 2 ^ 32) (h : tup.mem.drop pos = attEncoded a v ++ rest) :
    attrBytes a tup pos = v ∧ att_length a tup pos = (attEncoded a v).length := by
  rw [attEncoded_length]
  unfold attrBytes att_length
  by_cases hvar : a.attlen < 0
  · simp only [hvar, if_true]
    have henc : attEncoded a v = encodeLength v.length ++ v := by simp [attEncoded, hvar]
    rw [henc, List.append_assoc] at h
    have hd := decodeLength_encodeLength tup.mem (v ++ rest) pos v.length hlen h
    rw [hd]
    refine ⟨?_, rfl⟩
    have hdrop : tup.mem.drop (pos + VARHDRSZ) = v ++ rest := by
      rw [← List.drop_drop, h]
      simp [encodeLength, VARHDRSZ]
    rw [hdrop]
    exact List.take_left' rfl
  · simp only [hvar, if_false]
    have henc : attEncoded a v = v := by simp [attEncoded, hvar]
    rw [henc] at h
    have hl : v.length = a.attlen.toNat := by
      rcases hfit with h1 | h1
      · exact absurd h1 hvar
      · exact h1
    rw [h, ← hl]
    exact ⟨List.take_left' rfl, rfl⟩

theorem le_att_align (off alignby : Nat) : off ≤ att_align off alignby :=
  le_TYPEALIGN alignby off

theorem deform_fillData (tup : IndexTuple) (tp bp : Nat) (hasnulls : Bool)
    (pre post : List Nat) (hpre : pre.length = tp) (desc : List CompactAttribute) :
    ∀ (values : List (List Nat)) (isnull : List Bool) (data : List Nat) (attnum : Nat),
      valuesFit desc values isnull = true →
      tup.mem = pre ++ fillData desc values isnull data ++ post →
      (fillData desc values isnull data).length < 2 ^ 32 →
      (∀ j, j < desc.length →
        (hasnulls && att_isnull (attnum + j) tup bp) = isnull.getD j false) →
      index_deform_tuple_internal attrBytes [] tup tp bp hasnulls desc attnum data.length =
        (values, isnull) := by
  induction desc with
  | nil =>
    intro values isnull data attnum hfit _ _ _
    cases values <;> cases isnull <;> simp_all [valuesFit, index_deform_tuple_internal]
  | cons a desc ih =>
    intro values isnull data attnum hfit hmem hlen hnull
    cases values with
    | nil => cases isnull <;> simp [valuesFit] at hfit
    | cons v values =>
      cases isnull with
      | nil => simp [valuesFit] at hfit
      | cons n isnull =>
        have hnull0 := hnull 0 (by simp)
        have hnullS : ∀ j, j < desc.length →
            (hasnulls && att_isnull (attnum + 1 + j) tup bp) = isnull.getD j false := by
          intro j hj
          have := hnull (j + 1) (by simp; omega)
          rw [List.getD_cons_succ] at this
          rw [← this]
          congr 2
          omega
        rw [Nat.add_zero, List.getD_cons_zero] at hnull0
        cases n
        · simp only [valuesFit, Bool.false_eq_true, if_false, Bool.and_eq_true, Bool.or_eq_true,
            decide_eq_true_eq] at hfit
          obtain ⟨hv, hrest⟩ := hfit
          simp only [fillData, Bool.false_eq_true, if_false] at hmem hlen
          obtain ⟨t, ht⟩ := fillData_prefix desc values isnull
            (data ++ List.replicate (att_align data.length a.attalignby - data.length) 0 ++
              attEncoded a v)
          have hpos := le_att_align data.length a.attalignby
          have hdata : (data ++
              List.replicate (att_align data.length a.attalignby - data.length) 0 ++
              attEncoded a v).length =
              att_align data.length a.attalignby + (attEncoded a v).length := by
            simp only [List.length_append, List.length_replicate]
            omega
          have hencle : v.length ≤ (attEncoded a v).length := by
            rw [attEncoded_length]
            split <;> omega
          have hvlen : v.length < 2 ^ 32 := by
            rw [ht, List.length_append, hdata] at hlen
            omega
          have hdrop : tup.mem.drop (tp + att_align data.length a.attalignby) =
              attEncoded a v ++ (t ++ post) := by
            rw [hmem, ht]
            have hsplit : pre ++ (data ++
                List.replicate (att_align data.length a.attalignby - data.length) 0 ++
                attEncoded a v ++ t) ++ post =
                (pre ++ (data ++
                  List.replicate (att_align data.length a.attalignby - data.length) 0)) ++
                (attEncoded a v ++ (t ++ post)) := by
              simp only [List.append_assoc]
            rw [hsplit]
            apply List.drop_left'
            simp only [List.length_append, List.length_replicate]
            omega
          obtain ⟨hbytes, hattlen⟩ := attrBytes_attEncoded a v tup
            (tp + att_align data.length a.attalignby) (t ++ post) hv hvlen hdrop
          have hih := ih values isnull _ (attnum + 1) hrest hmem hlen hnullS
          rw [hdata] at hih
          simp only [index_deform_tuple_internal, hnull0, Bool.false_eq_true, if_false, hbytes,
            hattlen, hih]
        · simp only [valuesFit, if_true, Bool.and_eq_true, decide_eq_true_eq] at hfit
          obtain ⟨hv, hrest⟩ := hfit
          simp only [fillData, if_true] at hmem hlen
          have hih := ih values isnull data (attnum + 1) hrest hmem hlen hnullS
          simp only [index_deform_tuple_internal, hnull0, if_true, hih, hv]

theorem testBit_packBits (bs : List Bool) : ∀ k : Nat, (packBits bs).testBit k = bs.getD k false := by
  induction bs with
  | nil => intro k; simp [packBits]
  | cons b bs ih =>
    intro k
    cases k with
    | zero =>
      rw [Nat.testBit_to_div_mod, List.getD_cons_zero]
      cases b <;> simp [packBits]
    | succ k =>
      rw [Nat.testBit_succ, List.getD_cons_succ, ← ih k]
      have : (packBits (b :: bs)) / 2 = packBits bs := by
        cases b
        · simp [packBits]
        · simp [packBits]
          omega
      rw [this]

theorem getD_take_drop (l : List Bool) (m r : Nat) (hr : r < 8) :
    ((l.drop m).take 8).getD r false = l.getD (m + r) false := by
  rw [List.getD_eq_getElem?_getD, List.getD_eq_getElem?_getD, List.getElem?_take, if_pos hr,
    List.getElem?_drop]

theorem nullBitmap_getD (c : Config) (isnull : List Bool) (q : Nat)
    (hq : q < sizeofIndexAttributeBitMapData c) :
    (nullBitmap c isnull).getD q 0 = packBits ((isnull.drop (8 * q)).take 8) := by
  unfold nullBitmap
  rw [List.getD_eq_getElem?_getD, List.getElem?_map, List.getElem?_range hq]
  rfl

theorem nullBitmap_length (c : Config) (isnull : List Bool) :
    (nullBitmap c isnull).length = sizeofIndexAttributeBitMapData c := by
  simp [nullBitmap]

theorem att_isnull_nullBitmap (c : Config) (tup : IndexTuple) (isnull : List Bool)
    (rest : List Nat) (i : Nat) (hi : i < c.INDEX_MAX_KEYS)
    (hmem : tup.mem = List.replicate c.sizeofIndexTupleData 0 ++ nullBitmap c isnull ++ rest) :
    att_isnull i tup c.sizeofIndexTupleData = isnull.getD i false := by
  have hq : i / 8 < sizeofIndexAttributeBitMapData c := by
    unfold sizeofIndexAttributeBitMapData
    omega
  have hdrop : tup.mem.drop c.sizeofIndexTupleData = nullBitmap c isnull ++ rest := by
    rw [hmem, List.append_assoc]
    exact List.drop_left' (by simp)
  rw [att_isnull_eq_testBit,
    getD_add_of_drop tup.mem rest c.sizeofIndexTupleData (i / 8) (nullBitmap c isnull) hdrop
      (by rw [nullBitmap_length]; exact hq),
    nullBitmap_getD c isnull (i / 8) hq, testBit_packBits,
    getD_take_drop isnull (8 * (i / 8)) (i % 8) (Nat.mod_lt i (by decide))]
  congr 1
  omega

theorem getD_of_any_eq_false (isnull : List Bool) (h : isnull.any id = false) (j : Nat) :
    isnull.getD j false = false := by
  induction isnull generalizing j with
  | nil => rfl
  | cons b bs ih =>
    simp only [List.any_cons, id, Bool.or_eq_false_iff] at h
    cases j with
    | zero => simpa using h.1
    | succ j => simpa using ih h.2 j

theorem formInfomask_or_testBit (desc : List CompactAttribute) (isnull : List Bool) (size : Nat)
    (hsize : size ≤ 8191) :
    (formInfomask desc isnull ||| size).testBit 15 = isnull.any id := by
  have h15 : INDEX_NULL_MASK = 2 ^ 15 := by decide
  have h14 : INDEX_VAR_MASK = 2 ^ 14 := by decide
  have hs : size.testBit 15 = false :=
    testBit_eq_false_of_lt size 13 15 (by
      have : (2 : Nat) ^ 13 = 8192 := by decide
      omega) (by decide)
  unfold formInfomask
  rw [h15, h14, Nat.testBit_or, Nat.testBit_or, testBit_ite_two_pow, testBit_ite_two_pow, hs]
  simp

theorem formInfomask_testBit (desc : List CompactAttribute) (isnull : List Bool) :
    (formInfomask desc isnull).testBit 15 = isnull.any id := by
  have h := formInfomask_or_testBit desc isnull 0 (by decide)
  rwa [Nat.or_zero] at h

/-- Claim C14: round trip.  For every schema of at most `INDEX_MAX_KEYS` attributes and
every combination of values and null flags that fits it and whose encoded size is within
the 8191-byte limit, `index_form_tuple` builds a record, and `index_deform_tuple` applied
to that record returns exactly those values and null flags, attribute by attribute. -/
theorem index_deform_form_tuple (c : Config) (tupleDescriptor : List CompactAttribute)
    (values : List (List Nat)) (isnull : List Bool)
    (hfit : valuesFit tupleDescriptor values isnull = true)
    (hkeys : tupleDescriptor.length ≤ c.INDEX_MAX_KEYS)
    (hsize : formSize c tupleDescriptor values isnull ≤ 8191) :
    ∃ tup : IndexTuple,
      index_form_tuple c tupleDescriptor values isnull = some tup ∧
      index_deform_tuple c attrBytes [] tup tupleDescriptor = (values, isnull) := by
  have hnot : ¬ MAXALIGN c (IndexInfoFindDataOffset c (formInfomask tupleDescriptor isnull) +
      (fillData tupleDescriptor values isnull []).length) > INDEX_SIZE_MASK := by
    unfold formSize at hsize
    unfold INDEX_SIZE_MASK
    omega
  unfold index_form_tuple
  simp only [hnot, if_false]
  refine ⟨_, rfl, ?_⟩
  unfold index_deform_tuple
  simp only []
  have hbit := formInfomask_or_testBit tupleDescriptor isnull _ hsize
  unfold formSize at hbit
  have hoff : IndexInfoFindDataOffset c (formInfomask tupleDescriptor isnull |||
      MAXALIGN c (IndexInfoFindDataOffset c (formInfomask tupleDescriptor isnull) +
        (fillData tupleDescriptor values isnull []).length)) =
      IndexInfoFindDataOffset c (formInfomask tupleDescriptor isnull) :=
    IndexInfoFindDataOffset_congr c _ _ (by rw [hbit, formInfomask_testBit])
  have hhead : c.sizeofIndexTupleData +
      (if isnull.any id = true then sizeofIndexAttributeBitMapData c else 0) ≤
      IndexInfoFindDataOffset c (formInfomask tupleDescriptor isnull) := by
    rw [headerEnd_cases, formInfomask_testBit]
    exact le_TYPEALIGN _ _
  have hheadlen : (List.replicate c.sizeofIndexTupleData 0 ++
      (if isnull.any id = true then nullBitmap c isnull else [])).length =
      c.sizeofIndexTupleData +
        (if isnull.any id = true then sizeofIndexAttributeBitMapData c else 0) := by
    split <;> simp [nullBitmap_length]
  have hdatale := le_TYPEALIGN c.MAXIMUM_ALIGNOF
    (IndexInfoFindDataOffset c (formInfomask tupleDescriptor isnull) +
      (fillData tupleDescriptor values isnull []).length)
  rw [hoff, IndexTupleHasNulls_testBit, hbit]
  refine deform_fillData _
    (IndexInfoFindDataOffset c (formInfomask tupleDescriptor isnull)) c.sizeofIndexTupleData
    (isnull.any id)
    (List.replicate c.sizeofIndexTupleData 0 ++
      (if isnull.any id = true then nullBitmap c isnull else []) ++
      List.replicate (IndexInfoFindDataOffset c (formInfomask tupleDescriptor isnull) -
        (List.replicate c.sizeofIndexTupleData 0 ++
          (if isnull.any id = true then nullBitmap c isnull else [])).length) 0)
    (List.replicate (MAXALIGN c (IndexInfoFindDataOffset c (formInfomask tupleDescriptor isnull) +
        (fillData tupleDescriptor values isnull []).length) -
      (IndexInfoFindDataOffset c (formInfomask tupleDescriptor isnull) +
        (fillData tupleDescriptor values isnull []).length)) 0)
    ?_ tupleDescriptor values isnull [] 0 hfit rfl ?_ ?_
  · rw [List.length_append, List.length_replicate, hheadlen]
    omega
  · unfold formSize MAXALIGN at hsize
    omega
  · intro j hj
    rw [Nat.zero_add]
    cases hany : isnull.any id
    · rw [getD_of_any_eq_false isnull hany j]
      rfl
    · rw [Bool.true_and]
      refine att_isnull_nullBitmap c _ isnull
        (List.replicate (IndexInfoFindDataOffset c (formInfomask tupleDescriptor isnull) -
            (List.replicate c.sizeofIndexTupleData 0 ++
              (if true = true then nullBitmap c isnull else [])).length) 0 ++
          fillData tupleDescriptor values isnull [] ++
          List.replicate (MAXALIGN c (IndexInfoFindDataOffset c
              (formInfomask tupleDescriptor isnull) +
              (fillData tupleDescriptor values isnull []).length) -
            (IndexInfoFindDataOffset c (formInfomask tupleDescriptor isnull) +
              (fillData tupleDescriptor values isnull []).length)) 0)
        j (by omega) ?_
      simp only [if_true, List.append_assoc]

/-- Witness for claim C14: the schema of a 4-byte, a variable-width and a 4-byte
column with the values 42, "hi" and null. -/
theorem index_deform_form_tuple_witness :
    valuesFit exampleDesc [[42, 0, 0, 0], [104, 105], []] [false, false, true] = true ∧
      exampleDesc.length ≤ standardConfig.INDEX_MAX_KEYS ∧
      formSize standardConfig exampleDesc [[42, 0, 0, 0], [104, 105], []]
        [false, false, true] ≤ 8191 ∧
      ∃ tup : IndexTuple,
        index_form_tuple standardConfig exampleDesc [[42, 0, 0, 0], [104, 105], []]
          [false, false, true] = some tup ∧
        index_deform_tuple standardConfig attrBytes [] tup exampleDesc =
          ([[42, 0, 0, 0], [104, 105], []], [false, false, true]) :=
  ⟨by decide, by decide, by decide,
    index_deform_form_tuple standardConfig exampleDesc [[42, 0, 0, 0], [104, 105], []]
      [false, false, true] (by decide) (by decide) (by decide)⟩

/-! ## The accessor and the decoder -/

theorem deform_isnull_getD {α : Type} (fetch : CompactAttribute → IndexTuple → Nat → α)
    (nullValue : α) (tup : IndexTuple) (tp bp : Nat) (hasnulls : Bool)
    (desc : List CompactAttribute) :
    ∀ (attnum off j : Nat), j < desc.length →
      (index_deform_tuple_internal fetch nullValue tup tp bp hasnulls desc attnum off).2.getD j
          false = (hasnulls && att_isnull (attnum + j) tup bp) ∧
      ((hasnulls && att_isnull (attnum + j) tup bp) = true →
        (index_deform_tuple_internal fetch nullValue tup tp bp hasnulls desc attnum off).1.getD j
          nullValue = nullValue) := by
  induction desc with
  | nil => intro attnum off j hj; simp at hj
  | cons a desc ih =>
    intro attnum off j hj
    cases j with
    | zero =>
      rw [Nat.add_zero]
      cases hb : (hasnulls && att_isnull attnum tup bp) <;>
        simp [index_deform_tuple_internal, hb]
    | succ j =>
      have hj2 : j < desc.length := by simpa using hj
      have hidx : attnum + (j + 1) = attnum + 1 + j := by omega
      rw [hidx]
      cases hb : (hasnulls && att_isnull attnum tup bp)
      · simp only [index_deform_tuple_internal, hb, Bool.false_eq_true, if_false,
          List.getD_cons_succ]
        exact ih _ _ j hj2
      · simp only [index_deform_tuple_internal, hb, if_true, List.getD_cons_succ]
        exact ih _ _ j hj2

theorem deform_take {α : Type} (fetch : CompactAttribute → IndexTuple → Nat → α)
    (nullValue : α) (tup : IndexTuple) (tp bp : Nat) (hasnulls : Bool)
    (desc : List CompactAttribute) :
    ∀ (n attnum off : Nat),
      index_deform_tuple_internal fetch nullValue tup tp bp hasnulls (desc.take n) attnum off =
        ((index_deform_tuple_internal fetch nullValue tup tp bp hasnulls desc attnum off).1.take n,
          (index_deform_tuple_internal fetch nullValue tup tp bp hasnulls desc attnum off).2.take
            n) := by
  induction desc with
  | nil => intro n attnum off; simp [index_deform_tuple_internal]
  | cons a desc ih =>
    intro n attnum off
    cases n with
    | zero => simp [index_deform_tuple_internal]
    | succ n =>
      cases hb : (hasnulls && att_isnull attnum tup bp)
      · simp only [List.take_succ_cons, index_deform_tuple_internal, hb, Bool.false_eq_true,
          if_false, ih]
      · simp only [List.take_succ_cons, index_deform_tuple_internal, hb, if_true, ih]

theorem getD_take_of_lt {α : Type} (l : List α) (n i : Nat) (d : α) (h : i < n) :
    (l.take n).getD i d = l.getD i d := by
  rw [List.getD_eq_getElem?_getD, List.getD_eq_getElem?_getD, List.getElem?_take, if_pos h]

theorem cacheValid_none (u : CompactAttribute) (desc : List CompactAttribute) :
    cacheValid desc none = true → ∀ j, j < desc.length → (desc.getD j u).attcacheoff < 0 := by
  induction desc with
  | nil => intro _ j hj; simp at hj
  | cons a desc ih =>
    intro h j hj
    simp only [cacheValid, Bool.and_eq_true, decide_eq_true_eq] at h
    cases j with
    | zero => simpa using h.1
    | succ j =>
      rw [List.getD_cons_succ]
      exact ih h.2 j (by simpa using hj)

theorem deform_cached {α : Type} (fetch : CompactAttribute → IndexTuple → Nat → α)
    (nullValue d : α) (u : CompactAttribute) (tup : IndexTuple) (tp bp : Nat)
    (desc : List CompactAttribute) :
    ∀ (attnum off j : Nat), j < desc.length → cacheValid desc (some off) = true →
      0 ≤ (desc.getD j u).attcacheoff →
      (index_deform_tuple_internal fetch nullValue tup tp bp false desc attnum off).1.getD j d =
        fetch (desc.getD j u) tup (tp + (desc.getD j u).attcacheoff.toNat) := by
  induction desc with
  | nil => intro attnum off j hj; simp at hj
  | cons a desc ih =>
    intro attnum off j hj hvalid hoff
    by_cases hvar : a.attlen < 0
    · simp only [cacheValid, hvar, if_true, Bool.and_eq_true, decide_eq_true_eq] at hvalid
      cases j with
      | zero =>
        rw [List.getD_cons_zero] at hoff
        omega
      | succ j =>
        rw [List.getD_cons_succ] at hoff
        have := cacheValid_none u desc hvalid.2 j (by simpa using hj)
        omega
    · simp only [cacheValid, hvar, if_false, Bool.and_eq_true, Bool.or_eq_true,
        decide_eq_true_eq] at hvalid
      cases j with
      | zero =>
        rw [List.getD_cons_zero] at hoff ⊢
        have hc : a.attcacheoff = ((att_align off a.attalignby : Nat) : Int) := by
          rcases hvalid.1 with h | h
          · omega
          · exact h
        have hn : a.attcacheoff.toNat = att_align off a.attalignby := by
          rw [hc]
          exact Int.toNat_ofNat _
        simp only [index_deform_tuple_internal, Bool.false_and, Bool.false_eq_true, if_false,
          List.getD_cons_zero, hn]
      | succ j =>
        rw [List.getD_cons_succ] at hoff ⊢
        have hlen : att_length a tup (tp + att_align off a.attalignby) = a.attlen.toNat := by
          simp [att_length, hvar]
        simp only [index_deform_tuple_internal, Bool.false_and, Bool.false_eq_true, if_false,
          List.getD_cons_succ, hlen]
        exact ih _ _ j (by simpa using hj) hvalid.2 hoff

theorem nocache_value_eq (c : Config) (fetch : CompactAttribute → IndexTuple → Nat → Datum)
    (tup : IndexTuple) (attnum : Int) (tupleDesc : List CompactAttribute) (hatt : 1 ≤ attnum) :
    (nocache_index_getattr c fetch tup attnum tupleDesc).1 =
      (index_deform_tuple c fetch 0 tup tupleDesc).1.getD (attnum - 1).toNat 0 := by
  unfold nocache_index_getattr index_deform_tuple
  simp only []
  rw [deform_take]
  exact getD_take_of_lt _ _ _ _ (by omega)

/-- Claim C15: the accessor agrees with the decoder.  For every record, every schema whose
cached offsets are right and every attribute number from 1 to the number of attributes,
the value and the null flag returned by `index_getattr` are those that a full
`index_deform_tuple` pass over the same record has for that attribute, whether the cached
offset of the attribute is known or unknown. -/
theorem index_getattr_eq_deform (c : Config)
    (fetch : CompactAttribute → IndexTuple → Nat → Datum) (tup : IndexTuple) (attnum : Int)
    (tupleDesc : List CompactAttribute) (hatt : 1 ≤ attnum)
    (hle : attnum ≤ (tupleDesc.length : Int)) (hvalid : cacheValid tupleDesc (some 0) = true) :
    ∃ r : GetAttr (List CompactAttribute),
      index_getattr c (specEnv c fetch) tup attnum tupleDesc = some r ∧
      r.value = (index_deform_tuple c fetch 0 tup tupleDesc).1.getD (attnum - 1).toNat 0 ∧
      r.isnull = (index_deform_tuple c fetch 0 tup tupleDesc).2.getD (attnum - 1).toNat false := by
  have hidx : (attnum - 1).toNat < tupleDesc.length := by omega
  have hflag := deform_isnull_getD fetch 0 tup (IndexInfoFindDataOffset c tup.t_info)
    c.sizeofIndexTupleData (IndexTupleHasNulls tup.t_info) tupleDesc 0 0 (attnum - 1).toNat hidx
  rw [Nat.zero_add] at hflag
  have hslow := nocache_value_eq c fetch tup attnum tupleDesc hatt
  cases hn : tup.t_info.testBit 15
  · have hb : IndexTupleHasNulls tup.t_info = false := by
      rw [IndexTupleHasNulls_testBit, hn]
    rw [hb] at hflag
    rw [index_getattr_nonulls c _ tup attnum tupleDesc hatt hn]
    by_cases hoff : ((specEnv c fetch).TupleDescCompactAttr tupleDesc
        (attnum - 1).toNat).attcacheoff ≥ 0
    · rw [if_pos hoff]
      refine ⟨_, rfl, ?_, ?_⟩
      · have hfast := deform_cached fetch 0 0
          { attcacheoff := -1, attlen := -1, attbyval := false, attalignby := 1 } tup
          (IndexInfoFindDataOffset c tup.t_info) c.sizeofIndexTupleData tupleDesc 0 0
          (attnum - 1).toNat hidx hvalid hoff
        unfold index_deform_tuple
        rw [hb, hfast]
        rfl
      · unfold index_deform_tuple
        rw [hb, hflag.1]
        rfl
    · rw [if_neg hoff]
      refine ⟨_, rfl, hslow, ?_⟩
      unfold index_deform_tuple
      rw [hb, hflag.1]
      rfl
  · have hb : IndexTupleHasNulls tup.t_info = true := by
      rw [IndexTupleHasNulls_testBit, hn]
    rw [hb, Bool.true_and] at hflag
    rw [index_getattr_hasnulls c _ tup attnum tupleDesc hatt hn]
    cases hnull : att_isnull (attnum - 1).toNat tup c.sizeofIndexTupleData
    · have hif : (specEnv c fetch).att_isnull (attnum - 1).toNat tup c.sizeofIndexTupleData =
          false := hnull
      rw [hif]
      refine ⟨_, rfl, hslow, ?_⟩
      unfold index_deform_tuple
      rw [hb, hflag.1, hnull]
    · have hif : (specEnv c fetch).att_isnull (attnum - 1).toNat tup c.sizeofIndexTupleData =
          true := hnull
      rw [hif]
      refine ⟨_, rfl, ?_, ?_⟩
      · unfold index_deform_tuple
        rw [hb, hflag.2 hnull]
      · unfold index_deform_tuple
        rw [hb, hflag.1, hnull]

/-- Witness for claim C15: attribute 2 of `sampleTuple`, whose cached offset 4 is
known. -/
theorem index_getattr_eq_deform_witness :
    (1 : Int) ≤ 2 ∧ (2 : Int) ≤ (sampleDesc.length : Int) ∧
      cacheValid sampleDesc (some 0) = true ∧
      ∃ r : GetAttr (List CompactAttribute),
        index_getattr standardConfig (specEnv standardConfig fetchByte) sampleTuple 2 sampleDesc =
          some r ∧
        r.value =
          (index_deform_tuple standardConfig fetchByte 0 sampleTuple sampleDesc).1.getD
            ((2 : Int) - 1).toNat 0 ∧
        r.isnull =
          (index_deform_tuple standardConfig fetchByte 0 sampleTuple sampleDesc).2.getD
            ((2 : Int) - 1).toNat false :=
  ⟨by decide, by decide, by decide,
    index_getattr_eq_deform standardConfig fetchByte sampleTuple 2 sampleDesc (by decide)
      (by decide) (by decide)⟩

theorem cacheValid_cacheOffsets (desc : List CompactAttribute) :
    ∀ (n off : Nat), cacheValid desc (some off) = true →
      cacheValid (cacheOffsets (desc.take n) off ++ desc.drop n) (some off) = true := by
  induction desc with
  | nil => intro n off _; simp [cacheOffsets, cacheValid]
  | cons a desc ih =>
    intro n off hvalid
    cases n with
    | zero => simpa [cacheOffsets] using hvalid
    | succ n =>
      by_cases hvar : a.attlen < 0
      · simp only [List.take_succ_cons, List.drop_succ_cons, cacheOffsets, hvar, if_true,
          List.cons_append, List.take_append_drop]
        exact hvalid
      · simp only [cacheValid, hvar, if_false, Bool.and_eq_true] at hvalid
        simp only [List.take_succ_cons, List.drop_succ_cons, cacheOffsets, hvar, if_false,
          List.cons_append, cacheValid, Bool.and_eq_true, Bool.or_eq_true, decide_eq_true_eq]
        exact ⟨Or.inr trivial, ih n _ hvalid.2⟩

/-- The walk of `nocache_index_getattr` leaves the cached offsets of the descriptor
right. -/
theorem cacheValid_nocache_index_getattr (c : Config)
    (fetch : CompactAttribute → IndexTuple → Nat → Datum) (tup : IndexTuple) (attnum : Int)
    (tupleDesc : List CompactAttribute) (hvalid : cacheValid tupleDesc (some 0) = true) :
    cacheValid (nocache_index_getattr c fetch tup attnum tupleDesc).2 (some 0) = true := by
  unfold nocache_index_getattr
  simp only []
  split
  · exact hvalid
  · exact cacheValid_cacheOffsets tupleDesc _ 0 hvalid

end Itup
